import Mathlib

/-!
Verification of the project synchronisation engine of the Code Expert
desktop client (`src/ui/pages/projects/hooks/useProjectSync.ts` and the
`FileState` change-detection module it imports).

Paths are modelled as lists of segments: the relative path `"a/b"` is
`["a", "b"]` and the root path `"."` is `[]`; `dirname` drops the last
segment and `basename` is the last segment.  Exception payloads keep the
source's string representation of paths (via `pathToString`).
-/

set_option autoImplicit false

namespace CodeExpert

/-- A relative POSIX path, as its list of segments; `[]` is the root `.`. -/
abbrev Path := List String

/-- Render a path the way the TypeScript code carries it in exception
payloads: segments joined by `/`, with `.` for the root. -/
def pathToString (p : Path) : String :=
  if p = [] then "." else String.intercalate "/" p

/-- `libPath.dirname`: drop the last segment (total in the segment model). -/
def pathDirname (p : Path) : Path := p.dropLast

/-- `libPath.basename`: the last segment; fails on the root, mirroring
tauri's `basename` failing on `.`. -/
def pathBasename (p : Path) : Option String := p.getLast?

/-- `FilePermissions` from `domain/File`. -/
inductive FilePermissions where
  | r
  | rw
  deriving DecidableEq, Repr

/-- `FileEntryType` from `domain/File`. -/
inductive FileEntryType where
  | file
  | dir
  deriving DecidableEq, Repr

/-- `RemoteFileState` (FileState module): remote entry used for diffing. -/
structure RemoteFileState where
  path : Path
  version : Nat
  type : FileEntryType
  deriving DecidableEq, Repr

/-- `RemoteFileInfo` (`RemoteFileInfoC` codec): remote inventory entry. -/
structure RemoteFileInfo where
  path : Path
  version : Nat
  type : FileEntryType
  permissions : FilePermissions
  deriving DecidableEq, Repr

/-- `File` from `domain/File` (`FileInfo` in the FileState module): a
baseline entry persisted after a sync. -/
structure FileInfo where
  path : Path
  version : Nat
  hash : String
  type : FileEntryType
  permissions : FilePermissions
  deriving DecidableEq, Repr

/-- `LocalFileState` (FileState module): an entry observed on disk. -/
structure LocalFileState where
  path : Path
  type : FileEntryType
  hash : String
  deriving DecidableEq, Repr

/-- The `change` tag of a `RemoteFileChange`. -/
inductive RemoteChange where
  | noChange
  | updated (version : Nat)
  | removed
  | added (version : Nat)
  deriving DecidableEq, Repr

/-- `RemoteFileChange` (FileState module). -/
structure RemoteFileChange where
  path : Path
  change : RemoteChange
  deriving DecidableEq, Repr

/-- The `change` tag of a `LocalFileChange`. -/
inductive LocalChange where
  | noChange
  | updated
  | removed
  | added
  deriving DecidableEq, Repr

/-- `LocalFileChange` (FileState module). -/
structure LocalFileChange where
  path : Path
  change : LocalChange
  deriving DecidableEq, Repr

/-- `Conflict` (FileState module). -/
structure Conflict where
  path : Path
  changeRemote : RemoteChange
  changeLocal : LocalChange
  deriving DecidableEq, Repr

/-- `SyncException` from `domain/SyncException`. -/
inductive SyncException where
  | conflictingChanges
  | readOnlyFilesChanged (path : String) (reason : String)
  | invalidFilename (name : String)
  | fileSystemCorrupted (path : String) (reason : String)
  | projectDirMissing
  | networkError (reason : String)
  deriving DecidableEq, Repr

/-- `isFile` from `domain/File`, as a Bool predicate on the entry type. -/
def isFileType (t : FileEntryType) : Bool :=
  match t with
  | .file => true
  | .dir => false

/-- `nonEmptyArray.fromArray`: `none` on the empty list. -/
def nonEmptyFromList {α : Type} (l : List α) : Option (List α) :=
  if l.isEmpty then none else some l

/-- Read an optional non-empty change list back as a plain list. -/
def changeList {α : Type} (o : Option (List α)) : List α := o.getD []

/-- `getRemoteChanges` (FileState module): diff two remote inventories by
path, discriminating `updated` entries by `version`. -/
def getRemoteChanges (previous latest : List RemoteFileState) :
    Option (List RemoteFileChange) :=
  let previousFiles := previous.filter (fun f => isFileType f.type)
  let latestFiles := latest.filter (fun f => isFileType f.type)
  let removed : List RemoteFileChange :=
    (previousFiles.filter
        (fun p => !(latestFiles.any (fun l => l.path == p.path)))).map
      (fun f => { path := f.path, change := RemoteChange.removed })
  let added : List RemoteFileChange :=
    (latestFiles.filter
        (fun l => !(previousFiles.any (fun p => p.path == l.path)))).map
      (fun f => { path := f.path, change := RemoteChange.added f.version })
  let updated : List RemoteFileChange :=
    (previousFiles.filter
        (fun ls =>
          match latestFiles.find? (fun cs => cs.path == ls.path) with
          | some cs => cs.version != ls.version
          | none => false)).map
      (fun f => { path := f.path, change := RemoteChange.updated f.version })
  nonEmptyFromList (removed ++ added ++ updated)

/-- `getLocalChanges` (FileState module): diff the baseline against the
observed local state by path, discriminating `updated` entries by `hash`. -/
def getLocalChanges (previous : List FileInfo) (latest : List LocalFileState) :
    Option (List LocalFileChange) :=
  let previousFiles := previous.filter (fun f => isFileType f.type)
  let latestFiles := latest.filter (fun f => isFileType f.type)
  let removed : List LocalFileChange :=
    (previousFiles.filter
        (fun p => !(latestFiles.any (fun l => l.path == p.path)))).map
      (fun f => { path := f.path, change := LocalChange.removed })
  let added : List LocalFileChange :=
    (latestFiles.filter
        (fun l => !(previousFiles.any (fun p => p.path == l.path)))).map
      (fun f => { path := f.path, change := LocalChange.added })
  let updated : List LocalFileChange :=
    ((previousFiles.flatMap
          (fun p =>
            match latestFiles.find? (fun l => l.path == p.path) with
            | some l => [(p, l)]
            | none => [])).filter
        (fun pl => pl.2.hash != pl.1.hash)).map
      (fun pl => { path := pl.2.path, change := LocalChange.updated })
  nonEmptyFromList (removed ++ added ++ updated)

/-- `getConflicts` (FileState module): the path-intersection of the local
and remote change lists. -/
def getConflicts (local_ : List LocalFileChange) (remote : List RemoteFileChange) :
    Option (List Conflict) :=
  let conflicts : List Conflict :=
    (local_.filter
        (fun changeLocal => remote.any (fun r => r.path == changeLocal.path))).map
      (fun changeLocal =>
        { path := changeLocal.path
          changeRemote :=
            match remote.find? (fun r => r.path == changeLocal.path) with
            | some changeRemote => changeRemote.change
            | none => RemoteChange.noChange
          changeLocal := changeLocal.change })
  nonEmptyFromList conflicts

/-- `checkConflicts` (useProjectSync): fail with `conflictingChanges` when
both optional change sets are present and their conflict set is non-empty. -/
def checkConflicts (localChanges : Option (List LocalFileChange))
    (remoteChanges : Option (List RemoteFileChange)) : Except SyncException Unit :=
  match localChanges, remoteChanges with
  | some local_, some remote =>
    match getConflicts local_ remote with
    | some _ => .error .conflictingChanges
    | none => .ok ()
  | _, _ => .ok ()

/-- `findClosest` (useProjectSync): look `map` up at the path itself, then
walk upward via `dirname`; reaching the root without a hit is a
`fileSystemCorrupted` error. -/
def findClosest {α : Type} (map : Path → Option α) (relPath : Path) :
    Except SyncException α :=
  match map relPath with
  | some a => .ok a
  | none =>
    if h : relPath = [] then
      .error (.fileSystemCorrupted (pathToString relPath) "Root directory must exist")
    else
      findClosest map (pathDirname relPath)
termination_by relPath.length
decreasing_by
  simp [pathDirname, List.length_dropLast]
  exact List.length_pos.mpr h

/-- `checkClosestExistingAncestorIsWritable` (useProjectSync): the closest
path present in the remote inventory on the upward walk from the change's
path must have permissions `rw`. -/
def checkClosestExistingAncestorIsWritable (remote : List RemoteFileInfo)
    (c : LocalFileChange) : Except SyncException LocalFileChange :=
  match findClosest
      (fun closestPath =>
        (remote.find? (fun i => i.path == closestPath)).map
          (fun i => i.permissions == FilePermissions.rw))
      c.path with
  | .ok true => .ok c
  | .ok false =>
    .error (.readOnlyFilesChanged (pathToString c.path) "Parent directory is read-only")
  | .error e => .error e

/-- Modelled from the spec: `isValidFileName` of `domain/File` (not under
`src/`): a file name is valid when it is non-empty and free of path
separators and control characters (§4.1 validity predicates). -/
def isValidFileName (s : String) : Bool :=
  s ≠ "" && !(s.any (fun ch => ch == '/' || ch == '\\' || ch.toNat < 32))

/-- Modelled from the spec: `isValidDirName` of `domain/File` (not under
`src/`), same validity condition as `isValidFileName` (§4.1). -/
def isValidDirName (s : String) : Bool :=
  s ≠ "" && !(s.any (fun ch => ch == '/' || ch == '\\' || ch.toNat < 32))

/-- `checkValidFileName` (useProjectSync). -/
def checkValidFileName (c : LocalFileChange) : Except SyncException LocalFileChange :=
  match pathBasename c.path with
  | none =>
    .error (.fileSystemCorrupted (pathToString c.path) "Could not determine basename of path")
  | some filename =>
    if isValidFileName filename then .ok c else .error (.invalidFilename filename)

/-- The `ancestors` helper of `checkEveryNewAncestorIsValidDirName`: the
proper ancestors of a path, from `dirname path` down to the root `[]`
(the unfold stops once it has emitted `.`). -/
def ancestorPaths : Path → List Path
  | [] => []
  | x :: xs =>
    have : (pathDirname (x :: xs)).length < (x :: xs).length := by
      simp [pathDirname, List.length_dropLast]
    pathDirname (x :: xs) :: ancestorPaths (pathDirname (x :: xs))
termination_by p => p.length

/-- `checkEveryNewAncestorIsValidDirName` (useProjectSync): every ancestor
that does not yet exist in the remote inventory must have a valid directory
name. -/
def checkEveryNewAncestorIsValidDirName (remote : List RemoteFileInfo)
    (change : LocalFileChange) : Except SyncException LocalFileChange :=
  let paths := ancestorPaths change.path
  let newPaths := paths.filter (fun p => !(remote.any (fun i => i.path == p)))
  match newPaths.mapM pathBasename with
  | some names =>
    if names.all isValidDirName then .ok change
    else
      .error (.fileSystemCorrupted (String.intercalate "/" (paths.map pathToString))
        "Parent directory has invalid name")
  | none =>
    .error (.fileSystemCorrupted (String.intercalate "/" (paths.map pathToString))
      "Parent directory has invalid name")

/-- `isFileWritable` (useProjectSync): the change's own path must appear in
the remote inventory with permissions `rw`. -/
def isFileWritable (remote : List RemoteFileInfo) (c : LocalFileChange) : Bool :=
  match remote.find? (fun i => i.path == c.path) with
  | some i => i.permissions == FilePermissions.rw
  | none => false

/-- The per-change eligibility fold inside `getFilesToUpload`
(useProjectSync).  The `noChange` branch models the source's `panic`;
it is unreachable because `getFilesToUpload` filters `noChange` out first. -/
def uploadEligibility (remote : List RemoteFileInfo) (x : LocalFileChange) :
    Except SyncException LocalFileChange :=
  match x.change with
  | .noChange => .error (.fileSystemCorrupted "" "File has no changes")
  | .added =>
    (checkClosestExistingAncestorIsWritable remote x).bind
      (fun c =>
        (checkEveryNewAncestorIsValidDirName remote c).bind
          (fun c' => (checkValidFileName c').map (fun _ => c')))
  | .removed =>
    if isFileWritable remote x then
      checkClosestExistingAncestorIsWritable remote x
    else .error (.readOnlyFilesChanged "" "File is read-only")
  | .updated =>
    if isFileWritable remote x then .ok x
    else .error (.readOnlyFilesChanged "" "File is read-only")

/-- `getFilesToUpload` (useProjectSync): keep the changed entries and run
each through the eligibility checks, failing on the first rejection. -/
def getFilesToUpload (local_ : List LocalFileChange) (remote : List RemoteFileInfo) :
    Except SyncException (List LocalFileChange) :=
  (local_.filter
      (fun c =>
        match c.change with
        | .noChange => false
        | .added => true
        | .removed => true
        | .updated => true)).mapM
    (uploadEligibility remote)

/-- `getFilesToDownload` (useProjectSync): remote inventory entries whose
path carries an `added` or `updated` remote change. -/
def getFilesToDownload (projectInfoRemote : List RemoteFileInfo)
    (remoteChanges : List RemoteFileChange) : List RemoteFileInfo :=
  projectInfoRemote.filter
    (fun f =>
      (remoteChanges.filter
          (fun c =>
            match c.change with
            | .noChange => false
            | .added _ => true
            | .removed => false
            | .updated _ => true)).any
        (fun file => file.path == f.path))

/-- `getFilesToDelete` (useProjectSync): the `removed` remote changes. -/
def getFilesToDelete (remoteChanges : List RemoteFileChange) : List RemoteFileChange :=
  remoteChanges.filter
    (fun c =>
      match c.change with
      | .noChange => false
      | .added _ => false
      | .removed => true
      | .updated _ => false)

/-- `getDirToUpdate` (useProjectSync): the non-file entries of the remote
inventory. -/
def getDirToUpdate (projectInfoRemote : List RemoteFileInfo) : List RemoteFileInfo :=
  projectInfoRemote.filter (fun file => !(isFileType file.type))

/-- Modelled from the spec: `Changes` of `domain/SyncState` (not under
`src/`) summarises pending diffs; `unknown` is the initial value after a
fresh sync (§3 SyncState). -/
inductive Changes where
  | unknown
  deriving DecidableEq, Repr

/-- Modelled from the spec: `SyncState` of `domain/SyncState` (not under
`src/`): `synced(Changes) | syncing | failed(SyncException)` (§3). -/
inductive SyncState where
  | synced (changes : Changes)
  | syncing
  | failed (e : SyncException)
  deriving DecidableEq, Repr

/-- `ProjectMetadata` (`domain/ProjectMetadata`, fields per §3 Metadata;
only the fields the sync engine reads are modelled). -/
structure ProjectMetadata where
  projectId : String
  semester : String
  courseName : String
  exerciseName : String
  taskName : String
  deriving DecidableEq, Repr

/-- The payload of a `Local` project: metadata plus the local sync state
(`ProjectMetadata & ProjectFiles` in `domain/Project`). -/
structure LocalProjectValue where
  metadata : ProjectMetadata
  basePath : Path
  files : List FileInfo
  syncedAt : Nat
  syncState : SyncState
  deriving DecidableEq, Repr

/-- `Project` (`domain/Project`): `Remote(Metadata) | Local(...)`. -/
inductive Project where
  | remote (metadata : ProjectMetadata)
  | local (value : LocalProjectValue)
  deriving DecidableEq, Repr

/-- The metadata fields of `project.value`: both variants carry them. -/
def Project.metadata : Project → ProjectMetadata
  | .remote m => m
  | .local v => v.metadata

/-- `project.value.projectId`. -/
def Project.projectId (p : Project) : String := p.metadata.projectId

/-- `projectPrism.local.getOption(project).map(v => v.files)`:
the baseline of a local project. -/
def Project.baselineFiles : Project → Option (List FileInfo)
  | .remote _ => none
  | .local v => some v.files

/-- `ForceSyncDirection` (useProjectSync). -/
inductive ForceSyncDirection where
  | push
  | pull
  deriving DecidableEq, Repr

/-- The response of `GET project/{id}/info` (`getProjectInfoRemote`). -/
structure RemoteProjectInfo where
  files : List RemoteFileInfo
  deriving DecidableEq, Repr

/-- View a remote inventory entry as a diffable `RemoteFileState`
(structural width subtyping in the TypeScript source). -/
def RemoteFileInfo.toState (f : RemoteFileInfo) : RemoteFileState :=
  { path := f.path, version := f.version, type := f.type }

/-- View a baseline entry as a diffable `RemoteFileState` (structural
width subtyping in the TypeScript source). -/
def FileInfo.toState (f : FileInfo) : RemoteFileState :=
  { path := f.path, version := f.version, type := f.type }

/-- The observable effects of one sync run, in order of execution. -/
inductive SyncEffect where
  | getProjectInfo
  | postFiles (tarHash : Option String) (uploadFiles removeFiles : List Path)
  | createDir (path : Path) (readOnly : Bool)
  | getFile (path : Path)
  | writeFile (path : Path)
  | deleteLocal (path : Path)
  | upsert (value : LocalProjectValue)
  deriving DecidableEq, Repr

/-- The environment of one sync run: responses of the filesystem, the
settings store and the HTTP endpoints, plus the clock.  Functions stand
for the calls the run may make several times. -/
structure SyncEnv where
  /-- `api.settingRead('projectDir')`. -/
  settingProjectDir : Option Path
  /-- `libPath.escape` (C1 primitive, not under `src/`; spec §3 only
  requires it to be deterministic, so it enters as part of the
  environment). -/
  escape : String → String
  /-- Result of the first `GET project/{id}/info`. -/
  remoteInfo1 : Except SyncException RemoteProjectInfo
  /-- Result of the commit-phase `GET project/{id}/info`. -/
  remoteInfo2 : Except SyncException RemoteProjectInfo
  /-- `getProjectFilesLocal`: visible local files, relative to the project
  dir (`readDirTree`, visibility filter and `stripAncestor` folded into
  the environment); the error is the reason text. -/
  localScan : Except String (List Path)
  /-- `api.getFileHash` as used by `addHash` (a failure there is thrown
  outside the `SyncException` channel, so the call is modelled total). -/
  hashOf : Path → String
  /-- `libOs.tempDir` (a failure is thrown, so modelled total). -/
  tempDir : Path
  /-- `api.buildTar archivePath projectDir uploadFiles` (a `bindTaskK`
  step: cannot fail in the `SyncException` channel). -/
  tarHash : Path → Path → List Path → String
  /-- Result of `POST project/{id}/files`. -/
  postResult : Except SyncException RemoteProjectInfo
  /-- `api.createProjectDir path readOnly`: `some reason` on failure. -/
  createDirResult : Path → Bool → Option String
  /-- `api.createProjectPath projectDir`: `some reason` on failure. -/
  createPathResult : Path → Option String
  /-- Result of `GET project/{id}/file` for a given path. -/
  getFileResult : Path → Except SyncException String
  /-- `api.writeProjectFile`: `some reason` on failure. -/
  writeFileResult : Path → Option String
  /-- `api.getFileHash` inside `writeSingeFile` (its failure is mapped to
  `fileSystemCorrupted` there): reason or hash. -/
  writtenFileHash : Path → Except String String
  /-- `time.now()`. -/
  now : Nat

/-- The sync-run monad: sequences `TaskEither SyncException` steps while
recording the emitted effects (the trace survives a failure, as the real
effects do). -/
def SyncM (α : Type) : Type :=
  List SyncEffect → Except SyncException α × List SyncEffect

instance : Monad SyncM where
  pure a := fun t => (.ok a, t)
  bind m f := fun t =>
    match m t with
    | (.ok a, t') => f a t'
    | (.error e, t') => (.error e, t')

/-- Record one effect. -/
def emit (e : SyncEffect) : SyncM Unit := fun t => (.ok (), t ++ [e])

/-- Lift a pure `Either` into the run. -/
def liftExcept {α : Type} (x : Except SyncException α) : SyncM α := fun t => (x, t)

/-- Fail the run. -/
def throwSync {α : Type} (e : SyncException) : SyncM α := fun t => (.error e, t)

/-- `array.traverse(taskEither.ApplicativeSeq)` with the results
discarded (every traversal in the pipeline discards them). -/
def traverseU {α : Type} (f : α → SyncM Unit) : List α → SyncM Unit
  | [] => pure ()
  | x :: xs => f x >>= fun _ => traverseU f xs

/-- `updateDir` (useProjectSync): ensure a remote directory exists locally
with the remote's permissions. -/
def updateDir (env : SyncEnv) (projectDir : Path) (dir : RemoteFileInfo) : SyncM Unit :=
  let systemFilePath := projectDir ++ dir.path
  emit (.createDir systemFilePath (dir.permissions == FilePermissions.r)) >>= fun _ =>
    match env.createDirResult systemFilePath (dir.permissions == FilePermissions.r) with
    | some reason => throwSync (.fileSystemCorrupted (pathToString projectDir) reason)
    | none => pure ()

/-- `writeSingeFile` (useProjectSync): ensure the project path, fetch the
file body from `GET project/{id}/file`, write it with the remote
permissions and hash the written file. -/
def writeSingeFile (env : SyncEnv) (projectDir : Path) (projectFilePath : Path)
    (version : Nat) (permissions : FilePermissions) (type : FileEntryType) :
    SyncM FileInfo :=
  let systemFilePath := projectDir ++ projectFilePath
  (match env.createPathResult projectDir with
    | some reason => throwSync (.fileSystemCorrupted (pathToString projectDir) reason)
    | none => pure ()) >>= fun _ =>
  emit (.getFile projectFilePath) >>= fun _ =>
  liftExcept (env.getFileResult projectFilePath) >>= fun _fileContent =>
  emit (.writeFile systemFilePath) >>= fun _ =>
  (match env.writeFileResult systemFilePath with
    | some reason => throwSync (.fileSystemCorrupted (pathToString projectDir) reason)
    | none => pure ()) >>= fun _ =>
  match env.writtenFileHash systemFilePath with
  | .error reason => throwSync (.fileSystemCorrupted (pathToString projectDir) reason)
  | .ok hash =>
    pure { path := projectFilePath, version := version, hash := hash,
           type := type, permissions := permissions }

/-- `deleteSingeFile` (useProjectSync): remove a local file (a plain
`Task`, it cannot fail the run). -/
def deleteSingeFile (projectDir : Path) (projectFilePath : Path) : SyncM Unit :=
  emit (.deleteLocal (projectDir ++ projectFilePath))

/-- `uploadChangedFiles` (useProjectSync): build the archive of added and
updated files and post it together with the removed paths. -/
def uploadChangedFiles (env : SyncEnv) (fileName : String) (projectDir : Path)
    (localChanges : List LocalFileChange) : SyncM Unit :=
  let uploadFiles :=
    (localChanges.filter
        (fun c =>
          match c.change with
          | .noChange => false
          | .added => true
          | .removed => false
          | .updated => true)).map
      (fun c => c.path)
  let archivePath := env.tempDir ++ [fileName]
  let tarHash := env.tarHash archivePath projectDir uploadFiles
  let removeFiles :=
    (localChanges.filter
        (fun c =>
          match c.change with
          | .noChange => false
          | .added => false
          | .removed => true
          | .updated => false)).map
      (fun c => c.path)
  emit (.postFiles (if uploadFiles.isEmpty then none else some tarHash)
      uploadFiles removeFiles) >>= fun _ =>
  liftExcept env.postResult >>= fun _ =>
  pure ()

/-- `getProjectDirRelative` (useProjectSync): the escaped metadata
segments joined to a relative directory. -/
def getProjectDirRelative (escape : String → String) (m : ProjectMetadata) : Path :=
  [escape m.semester, escape m.courseName, escape m.exerciseName, escape m.taskName]

/-- The `projectDirRelative` binding of the run: derived from metadata for
a `Remote` project, the stored `basePath` for a `Local` one. -/
def projectDirRelativeOf (env : SyncEnv) (project : Project) : Path :=
  match project with
  | .remote metadata => getProjectDirRelative env.escape metadata
  | .local v => v.basePath

/-- Stable insertion of a directory entry by path depth (used to model
`array.sort` on the depth `Ord`, which is stable). -/
def insertByDepth (x : RemoteFileInfo) : List RemoteFileInfo → List RemoteFileInfo
  | [] => [x]
  | y :: ys =>
    if y.path.length < x.path.length then y :: insertByDepth x ys else x :: y :: ys

/-- `array.sort(ord.contramap(dir => dir.path.split('/').length)(number.Ord))`:
sort the directories shallow-first. -/
def sortByDepth : List RemoteFileInfo → List RemoteFileInfo
  | [] => []
  | x :: xs => insertByDepth x (sortByDepth xs)

/-- `getProjectFilesLocal` (useProjectSync): the local scan, with failures
mapped to `fileSystemCorrupted` on the project dir. -/
def getProjectFilesLocal (env : SyncEnv) (projectDir : Path) : SyncM (List Path) :=
  match env.localScan with
  | .error reason => throwSync (.fileSystemCorrupted (pathToString projectDir) reason)
  | .ok files => pure files

/-- `getProjectInfoLocal` (useProjectSync): hash every scanned file
(`addHash` joins the project dir before hashing). -/
def getProjectInfoLocal (env : SyncEnv) (projectDir : Path) : SyncM (List LocalFileState) :=
  getProjectFilesLocal env projectDir >>= fun files =>
    pure (files.map
      (fun p => { path := p, type := FileEntryType.file, hash := env.hashOf (projectDir ++ p) }))

/-- The commit-phase rehash (`updatedProjectInfo`): keep the `file`
entries of the re-fetched inventory and attach a fresh hash. -/
def rehashRemoteFiles (env : SyncEnv) (projectDir : Path)
    (files : List RemoteFileInfo) : List FileInfo :=
  (files.filter (fun f => isFileType f.type)).map
    (fun f =>
      { path := f.path, version := f.version, hash := env.hashOf (projectDir ++ f.path),
        type := f.type, permissions := f.permissions })

/-- The value stored by the final `projectRepository.upsertOne`:
`Local({ ...project.value, files, basePath, syncedAt, syncState })` where
`syncState` is `synced(unknown)` for a promoted `Remote` project and the
previous `syncState` for a `Local` one. -/
def commitValue (project : Project) (files : List FileInfo) (basePath : Path)
    (now : Nat) : LocalProjectValue :=
  { metadata := project.metadata
    basePath := basePath
    files := files
    syncedAt := now
    syncState :=
      match project with
      | .remote _ => .synced .unknown
      | .local v => v.syncState }

/-- All phases of one sync run up to (and including) the commit-phase
re-fetch and rehash; returns the new baseline and the relative project
dir that the final upsert stores. -/
def syncPrepare (env : SyncEnv) (project : Project)
    (force : Option ForceSyncDirection) : SyncM (List FileInfo × Path) :=
  -- setup
  (match env.settingProjectDir with
    | some d => pure d
    | none => throwSync .projectDirMissing) >>= fun rootDir =>
  let projectDirRelative := projectDirRelativeOf env project
  let projectDir := rootDir ++ projectDirRelative
  -- change detection
  let projectInfoPrevious := project.baselineFiles
  emit .getProjectInfo >>= fun _ =>
  liftExcept env.remoteInfo1 >>= fun projectInfoRemote =>
  (match project with
    | .local _ => getProjectInfoLocal env projectDir >>= fun l => pure (some l)
    | .remote _ => pure none) >>= fun projectInfoLocal =>
  let remoteChanges :=
    ((match projectInfoPrevious with
      | none => getRemoteChanges [] (projectInfoRemote.files.map RemoteFileInfo.toState)
      | some previous =>
        getRemoteChanges (previous.map FileInfo.toState)
          (projectInfoRemote.files.map RemoteFileInfo.toState))).filter
      (fun _ => force == none || force == some ForceSyncDirection.pull)
  let localChanges :=
    ((match projectInfoLocal, projectInfoPrevious with
      | some local_, some previous => getLocalChanges previous local_
      | _, _ => none)).filter
      (fun _ => force == none || force == some ForceSyncDirection.push)
  -- conflict gate
  liftExcept (checkConflicts localChanges remoteChanges) >>= fun _ =>
  -- plan
  (match localChanges with
    | some changes =>
      liftExcept (getFilesToUpload changes projectInfoRemote.files) >>= fun fs =>
        pure (some fs)
    | none => pure none) >>= fun filesToUpload =>
  let filesToDownload := remoteChanges.map (getFilesToDownload projectInfoRemote.files)
  let filesToDelete := remoteChanges.map getFilesToDelete
  -- upload local changed files
  (match filesToUpload with
    | none => pure ()
    | some fs =>
      uploadChangedFiles env
        ("project_" ++ project.projectId ++ "_" ++ toString env.now ++ ".tar.br")
        projectDir fs) >>= fun _ =>
  -- download and write added and updated files
  traverseU (updateDir env projectDir)
      (sortByDepth (getDirToUpdate projectInfoRemote.files)) >>= fun _ =>
  (match filesToDownload with
    | none => pure ()
    | some fs =>
      traverseU
        (fun f =>
          writeSingeFile env projectDir f.path f.version f.permissions f.type >>=
            fun _ => pure ())
        fs) >>= fun _ =>
  -- delete remote removed files
  (match filesToDelete with
    | none => pure ()
    | some fs => traverseU (fun c => deleteSingeFile projectDir c.path) fs) >>= fun _ =>
  -- update all project metadata
  emit .getProjectInfo >>= fun _ =>
  liftExcept env.remoteInfo2 >>= fun updatedInfo =>
  pure (rehashRemoteFiles env projectDir updatedInfo.files, projectDirRelative)

/-- One full sync run (`useProjectSync`'s returned callback): all phases,
then the store upsert. -/
def runProjectSync (env : SyncEnv) (project : Project)
    (force : Option ForceSyncDirection) : SyncM Unit :=
  syncPrepare env project force >>= fun pr =>
    emit (.upsert (commitValue project pr.1 pr.2 env.now)) >>= fun _ => pure ()

/-- A run started with an empty trace. -/
def runSync (env : SyncEnv) (project : Project)
    (force : Option ForceSyncDirection) : Except SyncException Unit × List SyncEffect :=
  runProjectSync env project force []

/-- Modelled from the spec: the project metadata store (C3, §4.3; the
repository implementation behind `projectRepository.upsertOne` is not
under `src/`): a durable mapping `ProjectId → Project`. -/
abbrev Store : Type := List (String × Project)

/-- Modelled from the spec: `find(id)` of the metadata store (§4.3). -/
def storeFind (s : Store) (id : String) : Option Project :=
  (s.find? (fun kv => kv.1 == id)).map (fun kv => kv.2)

/-- Modelled from the spec: `upsert(project)` of the metadata store
(§4.3): replace the record under the project's id, or append it. -/
def upsertOne (p : Project) (s : Store) : Store :=
  if s.any (fun kv => kv.1 == p.projectId) then
    s.map (fun kv => if kv.1 == p.projectId then (kv.1, p) else kv)
  else s ++ [(p.projectId, p)]

/-- Replay the store effects of a trace against a store. -/
def applyEffects (s : Store) (t : List SyncEffect) : Store :=
  t.foldl
    (fun acc e =>
      match e with
      | .upsert v => upsertOne (.local v) acc
      | _ => acc)
    s

/-- Does an effect touch the metadata store? -/
def isUpsert : SyncEffect → Bool
  | .upsert _ => true
  | _ => false

/-- Does an effect pull data down (fetch a file body or delete locally)? -/
def isPullEffect : SyncEffect → Bool
  | .getFile _ => true
  | .deleteLocal _ => true
  | _ => false

/-- Does an effect post local files to the server? -/
def isPostFiles : SyncEffect → Bool
  | .postFiles _ _ _ => true
  | _ => false

/-- A metadata record for concrete runs. -/
def demoMetadata : ProjectMetadata :=
  { projectId := "p1", semester := "s", courseName := "c",
    exerciseName := "e", taskName := "t" }

/-- An environment in which every phase succeeds and both inventories are
empty, for concrete runs. -/
def demoEnv : SyncEnv :=
  { settingProjectDir := some ["root"]
    escape := fun s => s
    remoteInfo1 := .ok { files := [] }
    remoteInfo2 := .ok { files := [] }
    localScan := .ok []
    hashOf := fun _ => "h"
    tempDir := ["tmp"]
    tarHash := fun _ _ _ => "tar"
    postResult := .ok { files := [] }
    createDirResult := fun _ _ => none
    createPathResult := fun _ => none
    getFileResult := fun _ => .ok "content"
    writeFileResult := fun _ => none
    writtenFileHash := fun _ => .ok "wh"
    now := 42 }

/-- A local project whose stored sync state is `syncing`. -/
def demoLocalSyncing : LocalProjectValue :=
  { metadata := demoMetadata, basePath := ["s", "c", "e", "t"], files := [],
    syncedAt := 0, syncState := .syncing }

/-- The group rank of a remote change record, for stating emission order:
removed before added before updated. -/
def remoteChangeRank (c : RemoteFileChange) : Nat :=
  match c.change with
  | .removed => 0
  | .added _ => 1
  | .updated _ => 2
  | .noChange => 3

/-- The group rank of a local change record, for stating emission order:
removed before added before updated. -/
def localChangeRank (c : LocalFileChange) : Nat :=
  match c.change with
  | .removed => 0
  | .added => 1
  | .updated => 2
  | .noChange => 3

/-- The upward walk from a path: the path itself, then its ancestors down
to the root `[]` (spec §4.5: "walking `dirname(path)` until a path present
in the remote inventory is found"; `findClosest` consults the path itself
before recursing on `dirname`). -/
def walkUp (p : Path) : List Path := p :: ancestorPaths p

/-- The first path on the upward walk from `p` that exists in the remote
inventory (the spec's `firstAncestorIn(remote)(p)`). -/
def firstExistingAncestor (remote : List RemoteFileInfo) (p : Path) : Option Path :=
  (walkUp p).find? (fun q => remote.any (fun i => i.path == q))

/-! ## Trace infrastructure -/

/-- `m` only appends effects satisfying `P` to the trace. -/
def EmitsOnly {α : Type} (P : SyncEffect → Bool) (m : SyncM α) : Prop :=
  ∀ t, ∃ δ, (m t).2 = t ++ δ ∧ ∀ e ∈ δ, P e = true

theorem emitsOnly_pure {α : Type} {P : SyncEffect → Bool} (a : α) :
    EmitsOnly P (pure a : SyncM α) := by
  intro t
  exact ⟨[], by simp [pure], by simp⟩

theorem emitsOnly_bind {α β : Type} {P : SyncEffect → Bool} {m : SyncM α}
    {f : α → SyncM β} (hm : EmitsOnly P m) (hf : ∀ a, EmitsOnly P (f a)) :
    EmitsOnly P (m >>= f) := by
  intro t
  obtain ⟨δ₁, h₁, hP₁⟩ := hm t
  show ∃ δ, (match m t with
    | (.ok a, t') => f a t'
    | (.error e, t') => (.error e, t')).2 = t ++ δ ∧ ∀ e ∈ δ, P e = true
  rcases hmt : m t with ⟨res, t'⟩
  rw [hmt] at h₁
  cases res with
  | ok a =>
    obtain ⟨δ₂, h₂, hP₂⟩ := hf a t'
    refine ⟨δ₁ ++ δ₂, ?_, ?_⟩
    · simp only [h₂]
      simp only [show t' = t ++ δ₁ from h₁, List.append_assoc]
    · intro e he
      rcases List.mem_append.mp he with h | h
      · exact hP₁ e h
      · exact hP₂ e h
  | error e => exact ⟨δ₁, h₁, hP₁⟩

theorem emitsOnly_emit {P : SyncEffect → Bool} {e : SyncEffect} (h : P e = true) :
    EmitsOnly P (emit e) := by
  intro t
  exact ⟨[e], rfl, by simpa using h⟩

theorem emitsOnly_liftExcept {α : Type} {P : SyncEffect → Bool}
    (x : Except SyncException α) : EmitsOnly P (liftExcept x) := by
  intro t
  exact ⟨[], by simp [liftExcept], by simp⟩

theorem emitsOnly_throwSync {α : Type} {P : SyncEffect → Bool} (e : SyncException) :
    EmitsOnly P (throwSync e : SyncM α) := by
  intro t
  exact ⟨[], by simp [throwSync], by simp⟩

theorem emitsOnly_traverseU {α : Type} {P : SyncEffect → Bool}
    {f : α → SyncM Unit} (hf : ∀ x, EmitsOnly P (f x)) :
    ∀ l : List α, EmitsOnly P (traverseU f l)
  | [] => by simpa [traverseU] using emitsOnly_pure ()
  | x :: xs => by
    simpa [traverseU] using
      emitsOnly_bind (hf x) (fun _ => emitsOnly_traverseU hf xs)

theorem emitsOnly_updateDir {P : SyncEffect → Bool} (env : SyncEnv)
    (projectDir : Path) (hdir : ∀ p b, P (.createDir p b) = true)
    (d : RemoteFileInfo) : EmitsOnly P (updateDir env projectDir d) := by
  unfold updateDir
  refine emitsOnly_bind (emitsOnly_emit (hdir _ _)) (fun _ => ?_)
  cases env.createDirResult (projectDir ++ d.path) (d.permissions == FilePermissions.r) with
  | some reason => exact emitsOnly_throwSync _
  | none => exact emitsOnly_pure ()

theorem emitsOnly_writeSingeFile {P : SyncEffect → Bool} (env : SyncEnv)
    (projectDir projectFilePath : Path) (version : Nat)
    (permissions : FilePermissions) (type : FileEntryType)
    (hget : ∀ p, P (.getFile p) = true) (hwrite : ∀ p, P (.writeFile p) = true) :
    EmitsOnly P (writeSingeFile env projectDir projectFilePath version permissions type) := by
  unfold writeSingeFile
  refine emitsOnly_bind ?_ (fun _ => ?_)
  · cases env.createPathResult projectDir with
    | some reason => exact emitsOnly_throwSync _
    | none => exact emitsOnly_pure ()
  refine emitsOnly_bind (emitsOnly_emit (hget _)) (fun _ => ?_)
  refine emitsOnly_bind (emitsOnly_liftExcept _) (fun _ => ?_)
  refine emitsOnly_bind (emitsOnly_emit (hwrite _)) (fun _ => ?_)
  refine emitsOnly_bind ?_ (fun _ => ?_)
  · cases env.writeFileResult (projectDir ++ projectFilePath) with
    | some reason => exact emitsOnly_throwSync _
    | none => exact emitsOnly_pure ()
  cases env.writtenFileHash (projectDir ++ projectFilePath) with
  | error reason => exact emitsOnly_throwSync _
  | ok hash => exact emitsOnly_pure _

theorem emitsOnly_uploadChangedFiles {P : SyncEffect → Bool} (env : SyncEnv)
    (fileName : String) (projectDir : Path) (localChanges : List LocalFileChange)
    (hpost : ∀ th u r, P (.postFiles th u r) = true) :
    EmitsOnly P (uploadChangedFiles env fileName projectDir localChanges) := by
  unfold uploadChangedFiles
  refine emitsOnly_bind (emitsOnly_emit (hpost _ _ _)) (fun _ => ?_)
  exact emitsOnly_bind (emitsOnly_liftExcept _) (fun _ => emitsOnly_pure ())

theorem emitsOnly_getProjectInfoLocal {P : SyncEffect → Bool} (env : SyncEnv)
    (projectDir : Path) : EmitsOnly P (getProjectInfoLocal env projectDir) := by
  unfold getProjectInfoLocal getProjectFilesLocal
  refine emitsOnly_bind ?_ (fun _ => emitsOnly_pure _)
  cases env.localScan with
  | error reason => exact emitsOnly_throwSync _
  | ok files => exact emitsOnly_pure _

theorem emitsOnly_syncPrepare {P : SyncEffect → Bool} (env : SyncEnv)
    (project : Project) (force : Option ForceSyncDirection)
    (hinfo : P .getProjectInfo = true)
    (hpost : ∀ th u r, P (.postFiles th u r) = true)
    (hdir : ∀ p b, P (.createDir p b) = true)
    (hget : ∀ p, P (.getFile p) = true)
    (hwrite : ∀ p, P (.writeFile p) = true)
    (hdel : ∀ p, P (.deleteLocal p) = true) :
    EmitsOnly P (syncPrepare env project force) := by
  unfold syncPrepare
  refine emitsOnly_bind ?_ (fun rootDir => ?_)
  · cases env.settingProjectDir with
    | some d => exact emitsOnly_pure _
    | none => exact emitsOnly_throwSync _
  refine emitsOnly_bind (emitsOnly_emit hinfo) (fun _ => ?_)
  refine emitsOnly_bind (emitsOnly_liftExcept _) (fun projectInfoRemote => ?_)
  refine emitsOnly_bind ?_ (fun projectInfoLocal => ?_)
  · cases project with
    | «local» v =>
      exact emitsOnly_bind (emitsOnly_getProjectInfoLocal _ _) (fun _ => emitsOnly_pure _)
    | remote m => exact emitsOnly_pure _
  refine emitsOnly_bind (emitsOnly_liftExcept _) (fun _ => ?_)
  refine emitsOnly_bind ?_ (fun filesToUpload => ?_)
  · split
    · exact emitsOnly_bind (emitsOnly_liftExcept _) (fun _ => emitsOnly_pure _)
    · exact emitsOnly_pure _
  refine emitsOnly_bind ?_ (fun _ => ?_)
  · split
    · exact emitsOnly_pure _
    · exact emitsOnly_uploadChangedFiles _ _ _ _ hpost
  refine emitsOnly_bind
      (emitsOnly_traverseU (emitsOnly_updateDir env _ hdir) _) (fun _ => ?_)
  refine emitsOnly_bind ?_ (fun _ => ?_)
  · split
    · exact emitsOnly_pure _
    · exact emitsOnly_traverseU
        (fun f =>
          emitsOnly_bind (emitsOnly_writeSingeFile env _ _ _ _ _ hget hwrite)
            (fun _ => emitsOnly_pure _)) _
  refine emitsOnly_bind ?_ (fun _ => ?_)
  · split
    · exact emitsOnly_pure _
    · refine emitsOnly_traverseU (fun c => ?_) _
      unfold deleteSingeFile
      exact emitsOnly_emit (hdel _)
  refine emitsOnly_bind (emitsOnly_emit hinfo) (fun _ => ?_)
  exact emitsOnly_bind (emitsOnly_liftExcept _) (fun _ => emitsOnly_pure _)

theorem applyEffects_of_no_upsert (t : List SyncEffect) :
    ∀ s : Store, (∀ e ∈ t, isUpsert e = false) → applyEffects s t = s := by
  induction t with
  | nil => intro s _; rfl
  | cons e es ih =>
    intro s h
    have he := h e (List.mem_cons_self e es)
    have hes : ∀ x ∈ es, isUpsert x = false := fun x hx => h x (List.mem_cons_of_mem e hx)
    cases e <;> simp [isUpsert] at he <;> simpa [applyEffects] using ih s hes

theorem SyncM.bind_apply {α β : Type} (m : SyncM α) (f : α → SyncM β)
    (t : List SyncEffect) :
    (m >>= f) t =
      match m t with
      | (.ok a, t') => f a t'
      | (.error e, t') => (.error e, t') := rfl

theorem SyncM.pure_apply {α : Type} (a : α) (t : List SyncEffect) :
    (pure a : SyncM α) t = (.ok a, t) := rfl

theorem SyncM.emit_apply (e : SyncEffect) (t : List SyncEffect) :
    emit e t = (.ok (), t ++ [e]) := rfl

/-- C1: a sync run that fails with a `SyncException` in any phase before
the commit step leaves the project metadata store unchanged: replaying the
run's store effects is the identity, so in particular the stored record
for the project's id is its pre-run value.  The upsert is the last step of
the run and is reached only when every earlier phase succeeded. -/
theorem sync_run_failure_preserves_metadata_store
    (env : SyncEnv) (project : Project) (force : Option ForceSyncDirection)
    (store : Store) (ex : SyncException)
    (h : (runSync env project force).1 = .error ex) :
    applyEffects store (runSync env project force).2 = store := by
  have hsp := emitsOnly_syncPrepare (P := fun e => !isUpsert e) env project force
    rfl (fun _ _ _ => rfl) (fun _ _ => rfl) (fun _ => rfl) (fun _ => rfl) (fun _ => rfl)
  obtain ⟨δ, hδ, hPδ⟩ := hsp []
  rcases hrun : syncPrepare env project force [] with ⟨res, t'⟩
  rw [hrun] at hδ
  cases res with
  | ok pr =>
    exfalso
    have hok : (runSync env project force).1 = .ok () := by
      simp [runSync, runProjectSync, SyncM.bind_apply, hrun, SyncM.emit_apply,
        SyncM.pure_apply]
    rw [hok] at h
    exact Except.noConfusion h
  | error e' =>
    have h2 : runSync env project force = (.error e', t') := by
      simp [runSync, runProjectSync, SyncM.bind_apply, hrun]
    rw [h2]
    have hδ' : t' = δ := by simpa using hδ
    refine applyEffects_of_no_upsert t' store (fun e he => ?_)
    have := hPδ e (hδ' ▸ he)
    simpa using this

/-- C1 witness: a run against an environment with no configured project
directory fails, and replaying its trace against a store with a record for
the project leaves the store intact. -/
theorem sync_run_failure_preserves_metadata_store_witness :
    applyEffects
        [("p1", Project.remote
          { projectId := "p1", semester := "s", courseName := "c",
            exerciseName := "e", taskName := "t" })]
        (runSync
          { settingProjectDir := none
            escape := fun s => s
            remoteInfo1 := .error (.networkError "offline")
            remoteInfo2 := .error (.networkError "offline")
            localScan := .ok []
            hashOf := fun _ => "h"
            tempDir := ["tmp"]
            tarHash := fun _ _ _ => "tar"
            postResult := .error (.networkError "offline")
            createDirResult := fun _ _ => none
            createPathResult := fun _ => none
            getFileResult := fun _ => .error (.networkError "offline")
            writeFileResult := fun _ => none
            writtenFileHash := fun _ => .ok "wh"
            now := 0 }
          (Project.remote
            { projectId := "p1", semester := "s", courseName := "c",
              exerciseName := "e", taskName := "t" })
          none).2 =
      [("p1", Project.remote
        { projectId := "p1", semester := "s", courseName := "c",
          exerciseName := "e", taskName := "t" })] :=
  sync_run_failure_preserves_metadata_store _ _ _ _ .projectDirMissing rfl

theorem SyncM.pure_bind {α β : Type} (a : α) (f : α → SyncM β) :
    (pure a : SyncM α) >>= f = f a := rfl

theorem filter_force_push {α : Type} (o : Option α) :
    o.filter
        (fun _ =>
          some ForceSyncDirection.push == none ||
            some ForceSyncDirection.push == some ForceSyncDirection.pull) =
      none := by
  cases o <;> rfl

theorem emitsOnly_syncPrepare_push {P : SyncEffect → Bool} (env : SyncEnv)
    (project : Project)
    (hinfo : P .getProjectInfo = true)
    (hpost : ∀ th u r, P (.postFiles th u r) = true)
    (hdir : ∀ p b, P (.createDir p b) = true) :
    EmitsOnly P (syncPrepare env project (some .push)) := by
  unfold syncPrepare
  simp only [filter_force_push, Option.map_none']
  refine emitsOnly_bind ?_ (fun rootDir => ?_)
  · cases env.settingProjectDir with
    | some d => exact emitsOnly_pure _
    | none => exact emitsOnly_throwSync _
  refine emitsOnly_bind (emitsOnly_emit hinfo) (fun _ => ?_)
  refine emitsOnly_bind (emitsOnly_liftExcept _) (fun projectInfoRemote => ?_)
  refine emitsOnly_bind ?_ (fun projectInfoLocal => ?_)
  · cases project with
    | «local» v =>
      exact emitsOnly_bind (emitsOnly_getProjectInfoLocal _ _) (fun _ => emitsOnly_pure _)
    | remote m => exact emitsOnly_pure _
  refine emitsOnly_bind (emitsOnly_liftExcept _) (fun _ => ?_)
  refine emitsOnly_bind ?_ (fun filesToUpload => ?_)
  · split
    · exact emitsOnly_bind (emitsOnly_liftExcept _) (fun _ => emitsOnly_pure _)
    · exact emitsOnly_pure _
  refine emitsOnly_bind ?_ (fun _ => ?_)
  · split
    · exact emitsOnly_pure _
    · exact emitsOnly_uploadChangedFiles _ _ _ _ hpost
  refine emitsOnly_bind
      (emitsOnly_traverseU (emitsOnly_updateDir env _ hdir) _) (fun _ => ?_)
  refine emitsOnly_bind (emitsOnly_pure _) (fun _ => ?_)
  refine emitsOnly_bind (emitsOnly_pure _) (fun _ => ?_)
  refine emitsOnly_bind (emitsOnly_emit hinfo) (fun _ => ?_)
  exact emitsOnly_bind (emitsOnly_liftExcept _) (fun _ => emitsOnly_pure _)

/-- C4: a run forced to `push` suppresses the remote change set, so its
trace contains no `GET project/{id}/file` request and no local deletion. -/
theorem force_push_run_never_pulls (env : SyncEnv) (project : Project) :
    ((runSync env project (some .push)).2.all (fun e => !isPullEffect e)) = true := by
  have h : EmitsOnly (fun e => !isPullEffect e)
      (runProjectSync env project (some .push)) := by
    refine emitsOnly_bind
        (emitsOnly_syncPrepare_push env project rfl (fun _ _ _ => rfl)
          (fun _ _ => rfl))
        (fun pr => ?_)
    exact emitsOnly_bind (emitsOnly_emit rfl) (fun _ => emitsOnly_pure _)
  obtain ⟨δ, hδ, hP⟩ := h []
  rw [List.all_eq_true]
  intro e he
  simp only [runSync] at he
  rw [hδ] at he
  exact hP e (by simpa using he)

theorem option_filter_none {α : Type} (p : α → Bool) :
    (none : Option α).filter p = none := rfl

theorem emitsOnly_syncPrepare_remote {P : SyncEffect → Bool} (env : SyncEnv)
    (metadata : ProjectMetadata) (force : Option ForceSyncDirection)
    (hinfo : P .getProjectInfo = true)
    (hdir : ∀ p b, P (.createDir p b) = true)
    (hget : ∀ p, P (.getFile p) = true)
    (hwrite : ∀ p, P (.writeFile p) = true)
    (hdel : ∀ p, P (.deleteLocal p) = true) :
    EmitsOnly P (syncPrepare env (.remote metadata) force) := by
  unfold syncPrepare
  simp only [Project.baselineFiles, SyncM.pure_bind, option_filter_none]
  refine emitsOnly_bind ?_ (fun rootDir => ?_)
  · cases env.settingProjectDir with
    | some d => exact emitsOnly_pure _
    | none => exact emitsOnly_throwSync _
  refine emitsOnly_bind (emitsOnly_emit hinfo) (fun _ => ?_)
  refine emitsOnly_bind (emitsOnly_liftExcept _) (fun projectInfoRemote => ?_)
  refine emitsOnly_bind (emitsOnly_liftExcept _) (fun _ => ?_)
  refine emitsOnly_bind
      (emitsOnly_traverseU (emitsOnly_updateDir env _ hdir) _) (fun _ => ?_)
  refine emitsOnly_bind ?_ (fun _ => ?_)
  · split
    · exact emitsOnly_pure _
    · exact emitsOnly_traverseU
        (fun f =>
          emitsOnly_bind (emitsOnly_writeSingeFile env _ _ _ _ _ hget hwrite)
            (fun _ => emitsOnly_pure _)) _
  refine emitsOnly_bind ?_ (fun _ => ?_)
  · split
    · exact emitsOnly_pure _
    · refine emitsOnly_traverseU (fun c => ?_) _
      unfold deleteSingeFile
      exact emitsOnly_emit (hdel _)
  refine emitsOnly_bind (emitsOnly_emit hinfo) (fun _ => ?_)
  exact emitsOnly_bind (emitsOnly_liftExcept _) (fun _ => emitsOnly_pure _)

/-- C9: a run on a `Remote` project (never synced before) has no baseline
and no local scan, so no `POST project/{id}/files` request appears in its
trace — nothing is ever uploaded, whatever the `force` option. -/
theorem remote_project_run_never_uploads (env : SyncEnv)
    (metadata : ProjectMetadata) (force : Option ForceSyncDirection) :
    ((runSync env (.remote metadata) force).2.all (fun e => !isPostFiles e)) = true := by
  have h : EmitsOnly (fun e => !isPostFiles e)
      (runProjectSync env (.remote metadata) force) := by
    refine emitsOnly_bind
        (emitsOnly_syncPrepare_remote env metadata force rfl (fun _ _ => rfl)
          (fun _ => rfl) (fun _ => rfl) (fun _ => rfl))
        (fun pr => ?_)
    exact emitsOnly_bind (emitsOnly_emit rfl) (fun _ => emitsOnly_pure _)
  obtain ⟨δ, hδ, hP⟩ := h []
  rw [List.all_eq_true]
  intro e he
  simp only [runSync] at he
  rw [hδ] at he
  exact hP e (by simpa using he)

theorem SyncM.bind_ok_inv {α β : Type} {m : SyncM α} {f : α → SyncM β}
    {t t' : List SyncEffect} {b : β}
    (h : (m >>= f) t = (.ok b, t')) :
    ∃ a t₁, m t = (.ok a, t₁) ∧ f a t₁ = (.ok b, t') := by
  rw [SyncM.bind_apply] at h
  rcases hm : m t with ⟨res, t₁⟩
  rw [hm] at h
  cases res with
  | ok a => exact ⟨a, t₁, rfl, h⟩
  | error e =>
    exfalso
    simpa using congrArg Prod.fst h

/-- If all phases succeed, the pair returned by `syncPrepare` is the
rehash of the commit-phase re-fetch together with the relative project
dir, and both environment lookups it depends on succeeded. -/
theorem syncPrepare_ok_inversion (env : SyncEnv) (project : Project)
    (force : Option ForceSyncDirection) (t t' : List SyncEffect)
    (pr : List FileInfo × Path)
    (h : syncPrepare env project force t = (.ok pr, t')) :
    ∃ rootDir info2,
      env.settingProjectDir = some rootDir ∧
      env.remoteInfo2 = .ok info2 ∧
      pr = (rehashRemoteFiles env (rootDir ++ projectDirRelativeOf env project)
              info2.files,
            projectDirRelativeOf env project) := by
  unfold syncPrepare at h
  obtain ⟨rd, t₁, hm1, h⟩ := SyncM.bind_ok_inv h
  rcases hset : env.settingProjectDir with _ | d
  · rw [hset] at hm1
    exact absurd (congrArg Prod.fst hm1) (by simp [throwSync])
  rw [hset] at hm1
  simp only [SyncM.pure_apply, Prod.mk.injEq, Except.ok.injEq] at hm1
  obtain ⟨rfl, rfl⟩ := hm1
  obtain ⟨_, t₂, hm2, h⟩ := SyncM.bind_ok_inv h
  obtain ⟨info1, t₃, hm3, h⟩ := SyncM.bind_ok_inv h
  obtain ⟨pil, t₄, hm4, h⟩ := SyncM.bind_ok_inv h
  obtain ⟨_, t₅, hm5, h⟩ := SyncM.bind_ok_inv h
  obtain ⟨ftu, t₆, hm6, h⟩ := SyncM.bind_ok_inv h
  obtain ⟨_, t₇, hm7, h⟩ := SyncM.bind_ok_inv h
  obtain ⟨_, t₈, hm8, h⟩ := SyncM.bind_ok_inv h
  obtain ⟨_, t₉, hm9, h⟩ := SyncM.bind_ok_inv h
  obtain ⟨_, t₁₀, hm10, h⟩ := SyncM.bind_ok_inv h
  obtain ⟨_, t₁₁, hm11, h⟩ := SyncM.bind_ok_inv h
  obtain ⟨info2, t₁₂, hm12, h⟩ := SyncM.bind_ok_inv h
  have hinfo2 : env.remoteInfo2 = .ok info2 := by
    have := congrArg Prod.fst hm12
    simpa [liftExcept] using this
  rw [SyncM.pure_apply] at h
  have hpr := congrArg Prod.fst h
  simp only [] at hpr
  exact ⟨d, info2, rfl, hinfo2, by simpa using hpr.symm⟩

/-- C5 (amended): every successful sync run ends by committing the project
to the store as `Local` with `files` set to the re-fetched and re-hashed
file entries of the remote inventory, `basePath` set to the relative
project directory and `syncedAt` set to the current time; `syncState` is
set to `synced(unknown)` when the input project was `Remote`, and is
carried over unchanged when the input was already `Local`. -/
theorem successful_run_commits_rehashed_inventory (env : SyncEnv)
    (project : Project) (force : Option ForceSyncDirection)
    (h : (runSync env project force).1 = .ok ()) :
    ∃ rootDir info2,
      env.settingProjectDir = some rootDir ∧
      env.remoteInfo2 = .ok info2 ∧
      (runSync env project force).2.getLast? =
        some (.upsert
          { metadata := project.metadata
            basePath := projectDirRelativeOf env project
            files := rehashRemoteFiles env
              (rootDir ++ projectDirRelativeOf env project) info2.files
            syncedAt := env.now
            syncState :=
              match project with
              | .remote _ => .synced .unknown
              | .local v => v.syncState }) := by
  rcases hsp : syncPrepare env project force [] with ⟨res, t'⟩
  cases res with
  | error e =>
    exfalso
    have : (runSync env project force).1 = .error e := by
      simp [runSync, runProjectSync, SyncM.bind_apply, hsp]
    rw [this] at h
    exact Except.noConfusion h
  | ok pr =>
    obtain ⟨rootDir, info2, hset, hinfo2, hpr⟩ :=
      syncPrepare_ok_inversion env project force [] t' pr hsp
    refine ⟨rootDir, info2, hset, hinfo2, ?_⟩
    have htr : (runSync env project force).2 =
        t' ++ [.upsert (commitValue project pr.1 pr.2 env.now)] := by
      simp [runSync, runProjectSync, SyncM.bind_apply, hsp, SyncM.emit_apply,
        SyncM.pure_apply]
    rw [htr, List.getLast?_concat]
    subst hpr
    cases project <;> rfl

/-- C5 (amended) witness: a concrete successful first-time sync of a
`Remote` project commits the promoted record. -/
theorem successful_run_commits_rehashed_inventory_witness :
    ∃ rootDir info2,
      demoEnv.settingProjectDir = some rootDir ∧
      demoEnv.remoteInfo2 = .ok info2 ∧
      (runSync demoEnv (.remote demoMetadata) none).2.getLast? =
        some (.upsert
          { metadata := (Project.remote demoMetadata).metadata
            basePath := projectDirRelativeOf demoEnv (.remote demoMetadata)
            files := rehashRemoteFiles demoEnv
              (rootDir ++ projectDirRelativeOf demoEnv (.remote demoMetadata))
              info2.files
            syncedAt := demoEnv.now
            syncState :=
              match Project.remote demoMetadata with
              | .remote _ => .synced .unknown
              | .local v => v.syncState }) :=
  successful_run_commits_rehashed_inventory demoEnv (.remote demoMetadata) none rfl

/-- C5 counterexample: a successful sync of a project that is already
`Local` with stored sync state `syncing` commits `syncState = syncing`,
not `synced(unknown)` — the claim's "for every input project" fails. -/
theorem successful_run_commit_syncState_counterexample :
    (runSync demoEnv (.local demoLocalSyncing) none).1 = .ok () ∧
    (runSync demoEnv (.local demoLocalSyncing) none).2.getLast? =
      some (.upsert
        { metadata := demoMetadata, basePath := ["s", "c", "e", "t"], files := [],
          syncedAt := 42, syncState := .syncing }) ∧
    SyncState.syncing ≠ SyncState.synced .unknown := by
  refine ⟨rfl, rfl, ?_⟩
  intro hcontra
  exact SyncState.noConfusion hcontra

theorem nonEmptyFromList_eq_none {α : Type} (l : List α) :
    nonEmptyFromList l = none ↔ l = [] := by
  cases l <;> simp [nonEmptyFromList]

theorem nonEmptyFromList_eq_some {α : Type} (l l' : List α) :
    nonEmptyFromList l = some l' ↔ l = l' ∧ l ≠ [] := by
  cases l <;> simp [nonEmptyFromList]

theorem getConflicts_eq_none_iff (l : List LocalFileChange)
    (r : List RemoteFileChange) :
    getConflicts l r = none ↔ ∀ c ∈ l, ∀ d ∈ r, d.path ≠ c.path := by
  unfold getConflicts
  rw [nonEmptyFromList_eq_none]
  simp [List.filter_eq_nil_iff]

/-- C3: the conflict gate fails with `conflictingChanges` exactly when
both change sets are present (non-empty) and share a path; otherwise —
either side absent (as when suppressed by `force`) or no shared path —
it passes, and no other outcome is possible. -/
theorem conflict_gate_iff (lo : Option (List LocalFileChange))
    (ro : Option (List RemoteFileChange)) :
    (checkConflicts lo ro = .error .conflictingChanges ↔
      ∃ l r, lo = some l ∧ ro = some r ∧ ∃ c ∈ l, ∃ d ∈ r, d.path = c.path) ∧
    (checkConflicts lo ro = .error .conflictingChanges ∨
      checkConflicts lo ro = .ok ()) := by
  cases lo with
  | none => simp [checkConflicts]
  | some l =>
    cases ro with
    | none => simp [checkConflicts]
    | some r =>
      simp only [checkConflicts]
      rcases hg : getConflicts l r with _ | cs
      · rw [getConflicts_eq_none_iff] at hg
        constructor
        · constructor
          · intro hcontra
            exact absurd hcontra (by simp)
          · rintro ⟨l', r', hl, hr, c, hc, d, hd, hpath⟩
            obtain rfl : l = l' := by simpa using hl
            obtain rfl : r = r' := by simpa using hr
            exact absurd hpath (hg c hc d hd)
        · right; rfl
      · have hne : ¬ ∀ c ∈ l, ∀ d ∈ r, d.path ≠ c.path := by
          intro hall
          rw [← getConflicts_eq_none_iff] at hall
          rw [hg] at hall
          exact Option.noConfusion hall
        constructor
        · constructor
          · intro _
            refine ⟨l, r, rfl, rfl, ?_⟩
            push_neg at hne
            obtain ⟨c, hc, d, hd, hpath⟩ := hne
            exact ⟨c, hc, d, hd, hpath⟩
          · intro _; rfl
        · left; rfl

theorem changeList_nonEmptyFromList {α : Type} (l : List α) :
    changeList (nonEmptyFromList l) = l := by
  cases l <;> simp [changeList, nonEmptyFromList]

theorem find?_proj_eq_some_of_nodup {α : Type} (proj : α → Path) (l : List α)
    (hn : (l.map proj).Nodup) (b : α) (hb : b ∈ l) :
    l.find? (fun x => proj x == proj b) = some b := by
  induction l with
  | nil => cases hb
  | cons x xs ih =>
    simp only [List.map_cons, List.nodup_cons] at hn
    rcases List.mem_cons.mp hb with rfl | hb'
    · simp
    · have hne : proj x ≠ proj b := by
        intro hcontra
        exact hn.1 (hcontra ▸ List.mem_map_of_mem proj hb')
      rw [List.find?_cons]
      rw [show (proj x == proj b) = false from beq_eq_false_iff_ne.mpr hne]
      exact ih hn.2 hb'

theorem mem_removed_getRemoteChanges (previous latest : List RemoteFileState)
    (p : Path) :
    (⟨p, .removed⟩ : RemoteFileChange) ∈ changeList (getRemoteChanges previous latest) ↔
      (∃ a ∈ previous, isFileType a.type = true ∧ a.path = p) ∧
      (∀ b ∈ latest, isFileType b.type = true → b.path ≠ p) := by
  simp only [getRemoteChanges, changeList_nonEmptyFromList]
  simp [List.mem_append, List.mem_map, List.mem_filter, List.any_eq_true]
  constructor
  · rintro ⟨a, ⟨ha, hall, hfile⟩, rfl⟩
    exact ⟨⟨a, ha, hfile, rfl⟩, hall⟩
  · rintro ⟨⟨a, ha, hfile, rfl⟩, hall⟩
    exact ⟨a, ⟨ha, hall, hfile⟩, rfl⟩

theorem mem_added_getRemoteChanges (previous latest : List RemoteFileState)
    (p : Path) (v : Nat) :
    (⟨p, .added v⟩ : RemoteFileChange) ∈ changeList (getRemoteChanges previous latest) ↔
      ∃ b ∈ latest, isFileType b.type = true ∧ b.path = p ∧ b.version = v ∧
        ∀ a ∈ previous, isFileType a.type = true → a.path ≠ p := by
  simp only [getRemoteChanges, changeList_nonEmptyFromList]
  simp [List.mem_append, List.mem_map, List.mem_filter, List.any_eq_true]
  constructor
  · rintro ⟨b, ⟨hb, hall, hfile⟩, rfl, rfl⟩
    exact ⟨b, hb, hfile, rfl, rfl, hall⟩
  · rintro ⟨b, hb, hfile, rfl, rfl, hall⟩
    exact ⟨b, ⟨hb, hall, hfile⟩, rfl, rfl⟩

theorem mem_updated_getRemoteChanges_mp (previous latest : List RemoteFileState)
    (p : Path) (v : Nat)
    (h : (⟨p, .updated v⟩ : RemoteFileChange) ∈
      changeList (getRemoteChanges previous latest)) :
    ∃ a ∈ previous, isFileType a.type = true ∧ a.path = p ∧ a.version = v ∧
      ∃ b ∈ latest, isFileType b.type = true ∧ b.path = p ∧ b.version ≠ v := by
  simp only [getRemoteChanges, changeList_nonEmptyFromList, List.mem_append,
    List.mem_map, List.mem_filter, RemoteFileChange.mk.injEq] at h
  · rcases h with (h | h) | h
    · obtain ⟨a, h1, h23⟩ := h
      exact absurd h23.2 (by simp)
    · obtain ⟨a, h1, h23⟩ := h
      exact absurd h23.2 (by simp)
    · obtain ⟨a, h1, h23⟩ := h
      obtain ⟨h2, h3⟩ := h23
      obtain ⟨⟨ha, hfile⟩, hcond⟩ := h1
      subst h2
      obtain rfl : a.version = v := by simpa using h3
      rcases hfind : List.find? (fun cs => cs.path == a.path)
          (List.filter (fun f => isFileType f.type) latest) with _ | cs
      · rw [hfind] at hcond
        exact absurd hcond (by simp)
      · rw [hfind] at hcond
        have hcs := List.find?_some hfind
        have hmem := List.mem_of_find?_eq_some hfind
        rw [List.mem_filter] at hmem
        exact ⟨a, ha, hfile, rfl, rfl, cs, hmem.1, hmem.2, by simpa using hcs,
          by simpa using hcond⟩

theorem mem_updated_getRemoteChanges (previous latest : List RemoteFileState)
    (p : Path) (v : Nat)
    (hn : ((latest.filter (fun f => isFileType f.type)).map (fun f => f.path)).Nodup) :
    (⟨p, .updated v⟩ : RemoteFileChange) ∈ changeList (getRemoteChanges previous latest) ↔
      ∃ a ∈ previous, isFileType a.type = true ∧ a.path = p ∧ a.version = v ∧
        ∃ b ∈ latest, isFileType b.type = true ∧ b.path = p ∧ b.version ≠ v := by
  constructor
  · exact mem_updated_getRemoteChanges_mp previous latest p v
  simp only [getRemoteChanges, changeList_nonEmptyFromList, List.mem_append,
    List.mem_map, List.mem_filter, RemoteFileChange.mk.injEq]
  · rintro ⟨a, ha, hfile, rfl, rfl, b, hb, hbfile, hbpath, hbver⟩
    refine Or.inr ⟨a, ⟨⟨ha, hfile⟩, ?_⟩, rfl, rfl⟩
    have hbmem : b ∈ List.filter (fun f => isFileType f.type) latest :=
      List.mem_filter.mpr ⟨hb, hbfile⟩
    have hfind := find?_proj_eq_some_of_nodup (fun f => f.path) _ hn b hbmem
    simp only [] at hfind
    rw [hbpath] at hfind
    rw [hfind]
    simpa using hbver

theorem noChange_not_mem_getRemoteChanges (previous latest : List RemoteFileState)
    (p : Path) :
    (⟨p, .noChange⟩ : RemoteFileChange) ∉ changeList (getRemoteChanges previous latest) := by
  simp [getRemoteChanges, changeList_nonEmptyFromList]

theorem remote_updated_cond_iff (latest : List RemoteFileState) (a : RemoteFileState)
    (hn : ((latest.filter (fun f => isFileType f.type)).map (fun f => f.path)).Nodup) :
    ((match (latest.filter (fun f => isFileType f.type)).find? (fun cs => cs.path == a.path) with
      | some cs => cs.version != a.version
      | none => false) = true) ↔
    ∃ b ∈ latest, isFileType b.type = true ∧ b.path = a.path ∧ b.version ≠ a.version := by
  rcases hfind : (latest.filter (fun f => isFileType f.type)).find?
      (fun cs => cs.path == a.path) with _ | cs
  · simp only [hfind]
    constructor
    · intro h; exact absurd h (by simp)
    · rintro ⟨b, hb, hbfile, hbpath, hbver⟩
      have hbmem : b ∈ latest.filter (fun f => isFileType f.type) :=
        List.mem_filter.mpr ⟨hb, hbfile⟩
      have := find?_proj_eq_some_of_nodup (fun f => f.path) _ hn b hbmem
      simp only [] at this
      rw [hbpath] at this
      rw [hfind] at this
      exact Option.noConfusion this
  · simp only [hfind]
    constructor
    · intro h
      have hcs := List.find?_some hfind
      have hmem := List.mem_of_find?_eq_some hfind
      rw [List.mem_filter] at hmem
      exact ⟨cs, hmem.1, hmem.2, by simpa using hcs, by simpa using h⟩
    · rintro ⟨b, hb, hbfile, hbpath, hbver⟩
      have hbmem : b ∈ latest.filter (fun f => isFileType f.type) :=
        List.mem_filter.mpr ⟨hb, hbfile⟩
      have := find?_proj_eq_some_of_nodup (fun f => f.path) _ hn b hbmem
      simp only [] at this
      rw [hbpath] at this
      rw [hfind] at this
      obtain rfl : cs = b := by simpa using this
      simpa using hbver

theorem getRemoteChanges_eq_none_iff (previous latest : List RemoteFileState)
    (hn : ((latest.filter (fun f => isFileType f.type)).map (fun f => f.path)).Nodup) :
    getRemoteChanges previous latest = none ↔
      (∀ a ∈ previous, isFileType a.type = true →
        ∃ b ∈ latest, isFileType b.type = true ∧ b.path = a.path) ∧
      (∀ b ∈ latest, isFileType b.type = true →
        ∃ a ∈ previous, isFileType a.type = true ∧ a.path = b.path) ∧
      (∀ a ∈ previous, isFileType a.type = true →
        ∀ b ∈ latest, isFileType b.type = true → b.path = a.path →
          b.version = a.version) := by
  unfold getRemoteChanges
  rw [nonEmptyFromList_eq_none]
  simp only [List.append_eq_nil, List.map_eq_nil_iff, List.filter_eq_nil_iff,
    List.mem_filter, List.any_eq_true, Bool.not_eq_true', Bool.not_eq_true,
    List.any_eq_false, beq_iff_eq]
  constructor
  · rintro ⟨⟨hR, hA⟩, hU⟩
    refine ⟨?_, ?_, ?_⟩
    · intro a ha hfile
      have h := hR a ⟨ha, hfile⟩
      push_neg at h
      obtain ⟨x, ⟨hx, hxfile⟩, hxp⟩ := h
      exact ⟨x, hx, hxfile, hxp⟩
    · intro b hb hbfile
      have h := hA b ⟨hb, hbfile⟩
      push_neg at h
      obtain ⟨x, ⟨hx, hxfile⟩, hxp⟩ := h
      exact ⟨x, hx, hxfile, hxp⟩
    · intro a ha hfile b hb hbfile hbpath
      have hc := hU a ⟨ha, hfile⟩
      have hnot : ¬ ∃ b ∈ latest, isFileType b.type = true ∧ b.path = a.path ∧
          b.version ≠ a.version := by
        rw [← remote_updated_cond_iff latest a hn]
        rw [hc]
        simp
      push_neg at hnot
      exact hnot b hb hbfile hbpath
  · rintro ⟨h1, h2, h3⟩
    refine ⟨⟨?_, ?_⟩, ?_⟩
    · rintro a ⟨ha, hfile⟩ hall
      obtain ⟨b, hb, hbfile, hbpath⟩ := h1 a ha hfile
      exact hall b ⟨hb, hbfile⟩ hbpath
    · rintro b ⟨hb, hbfile⟩ hall
      obtain ⟨a, ha, hafile, hapath⟩ := h2 b hb hbfile
      exact hall a ⟨ha, hafile⟩ hapath
    · rintro a ⟨ha, hfile⟩
      rw [← Bool.not_eq_true]
      rw [remote_updated_cond_iff latest a hn]
      push_neg
      intro b hb hbfile hbpath
      exact h3 a ha hfile b hb hbfile hbpath

theorem mem_removed_getLocalChanges (previous : List FileInfo)
    (latest : List LocalFileState) (p : Path) :
    (⟨p, .removed⟩ : LocalFileChange) ∈ changeList (getLocalChanges previous latest) ↔
      (∃ a ∈ previous, isFileType a.type = true ∧ a.path = p) ∧
      (∀ b ∈ latest, isFileType b.type = true → b.path ≠ p) := by
  simp only [getLocalChanges, changeList_nonEmptyFromList]
  simp [List.mem_append, List.mem_map, List.mem_filter, List.any_eq_true]
  constructor
  · rintro ⟨a, ⟨ha, hall, hfile⟩, rfl⟩
    exact ⟨⟨a, ha, hfile, rfl⟩, hall⟩
  · rintro ⟨⟨a, ha, hfile, rfl⟩, hall⟩
    exact ⟨a, ⟨ha, hall, hfile⟩, rfl⟩

theorem mem_added_getLocalChanges (previous : List FileInfo)
    (latest : List LocalFileState) (p : Path) :
    (⟨p, .added⟩ : LocalFileChange) ∈ changeList (getLocalChanges previous latest) ↔
      ∃ b ∈ latest, isFileType b.type = true ∧ b.path = p ∧
        ∀ a ∈ previous, isFileType a.type = true → a.path ≠ p := by
  simp only [getLocalChanges, changeList_nonEmptyFromList]
  simp [List.mem_append, List.mem_map, List.mem_filter, List.any_eq_true]
  constructor
  · rintro ⟨b, ⟨hb, hall, hfile⟩, rfl⟩
    exact ⟨b, hb, hfile, rfl, hall⟩
  · rintro ⟨b, hb, hfile, rfl, hall⟩
    exact ⟨b, ⟨hb, hall, hfile⟩, rfl⟩

theorem mem_updated_getLocalChanges (previous : List FileInfo)
    (latest : List LocalFileState) (p : Path)
    (hn : ((latest.filter (fun f => isFileType f.type)).map (fun f => f.path)).Nodup) :
    (⟨p, .updated⟩ : LocalFileChange) ∈ changeList (getLocalChanges previous latest) ↔
      ∃ a ∈ previous, isFileType a.type = true ∧ a.path = p ∧
        ∃ b ∈ latest, isFileType b.type = true ∧ b.path = p ∧ b.hash ≠ a.hash := by
  simp only [getLocalChanges, changeList_nonEmptyFromList, List.mem_append,
    List.mem_map, List.mem_filter, List.mem_flatMap, LocalFileChange.mk.injEq]
  constructor
  · intro h
    rcases h with (h | h) | h
    · obtain ⟨a, h1, h23⟩ := h
      exact absurd h23.2 (by simp)
    · obtain ⟨a, h1, h23⟩ := h
      exact absurd h23.2 (by simp)
    · obtain ⟨pr, ⟨⟨a1, ⟨ha1, hfile1⟩, hmem⟩, hne⟩, hp, -⟩ := h
      rcases hfind : (latest.filter (fun f => isFileType f.type)).find?
          (fun l => l.path == a1.path) with _ | l
      · rw [hfind] at hmem
        cases hmem
      · rw [hfind] at hmem
        obtain rfl : pr = (a1, l) := by simpa using hmem
        have hl := List.find?_some hfind
        have hlmem := List.mem_of_find?_eq_some hfind
        rw [List.mem_filter] at hlmem
        have hlpath : l.path = a1.path := by simpa using hl
        subst hp
        exact ⟨a1, ha1, hfile1, hlpath.symm, l, hlmem.1, hlmem.2, rfl,
          by simpa using hne⟩
  · rintro ⟨a, ha, hfile, rfl, b, hb, hbfile, hbpath, hbhash⟩
    refine Or.inr ⟨(a, b), ⟨⟨a, ⟨ha, hfile⟩, ?_⟩, ?_⟩, hbpath, trivial⟩
    · have hbmem : b ∈ latest.filter (fun f => isFileType f.type) :=
        List.mem_filter.mpr ⟨hb, hbfile⟩
      have hfind := find?_proj_eq_some_of_nodup (fun f => f.path) _ hn b hbmem
      simp only [] at hfind
      rw [hbpath] at hfind
      rw [hfind]
      simp
    · simpa using hbhash

theorem getLocalChanges_eq_none_iff (previous : List FileInfo)
    (latest : List LocalFileState)
    (hn : ((latest.filter (fun f => isFileType f.type)).map (fun f => f.path)).Nodup) :
    getLocalChanges previous latest = none ↔
      (∀ a ∈ previous, isFileType a.type = true →
        ∃ b ∈ latest, isFileType b.type = true ∧ b.path = a.path) ∧
      (∀ b ∈ latest, isFileType b.type = true →
        ∃ a ∈ previous, isFileType a.type = true ∧ a.path = b.path) ∧
      (∀ a ∈ previous, isFileType a.type = true →
        ∀ b ∈ latest, isFileType b.type = true → b.path = a.path →
          b.hash = a.hash) := by
  unfold getLocalChanges
  rw [nonEmptyFromList_eq_none]
  simp only [List.append_eq_nil, List.map_eq_nil_iff, List.filter_eq_nil_iff,
    List.mem_filter, List.mem_flatMap, List.any_eq_true, Bool.not_eq_true',
    Bool.not_eq_true, List.any_eq_false, beq_iff_eq]
  constructor
  · rintro ⟨⟨hR, hA⟩, hU⟩
    refine ⟨?_, ?_, ?_⟩
    · intro a ha hfile
      have h := hR a ⟨ha, hfile⟩
      push_neg at h
      obtain ⟨x, ⟨hx, hxfile⟩, hxp⟩ := h
      exact ⟨x, hx, hxfile, hxp⟩
    · intro b hb hbfile
      have h := hA b ⟨hb, hbfile⟩
      push_neg at h
      obtain ⟨x, ⟨hx, hxfile⟩, hxp⟩ := h
      exact ⟨x, hx, hxfile, hxp⟩
    · intro a ha hfile b hb hbfile hbpath
      have hbmem : b ∈ latest.filter (fun f => isFileType f.type) :=
        List.mem_filter.mpr ⟨hb, hbfile⟩
      have hfind := find?_proj_eq_some_of_nodup (fun f => f.path) _ hn b hbmem
      simp only [] at hfind
      rw [hbpath] at hfind
      have hc := hU (a, b) ⟨a, ⟨ha, hfile⟩, by rw [hfind]; simp⟩
      simpa using hc
  · rintro ⟨h1, h2, h3⟩
    refine ⟨⟨?_, ?_⟩, ?_⟩
    · rintro a ⟨ha, hfile⟩ hall
      obtain ⟨b, hb, hbfile, hbpath⟩ := h1 a ha hfile
      exact hall b ⟨hb, hbfile⟩ hbpath
    · rintro b ⟨hb, hbfile⟩ hall
      obtain ⟨a, ha, hafile, hapath⟩ := h2 b hb hbfile
      exact hall a ⟨ha, hafile⟩ hapath
    · rintro pr ⟨a1, ⟨ha1, hfile1⟩, hmem⟩
      rcases hfind : (latest.filter (fun f => isFileType f.type)).find?
          (fun l => l.path == a1.path) with _ | l
      · rw [hfind] at hmem
        cases hmem
      · rw [hfind] at hmem
        obtain rfl : pr = (a1, l) := by simpa using hmem
        have hl := List.find?_some hfind
        have hlmem := List.mem_of_find?_eq_some hfind
        rw [List.mem_filter] at hlmem
        have hlpath : l.path = a1.path := by simpa using hl
        have := h3 a1 ha1 hfile1 l hlmem.1 hlmem.2 hlpath
        simpa using this

/-- C2: change detection over file entries is exactly the by-path set
difference and discriminator comparison of the spec: a `removed` record
for every file path in `previous` but not in `latest`, an `added` record
for every file path in `latest` but not in `previous`, an `updated`
record for every file path in both whose discriminator differs —
`version` for remote diffs, `hash` for local diffs — and `none` exactly
when all three sets are empty. (Stated for inventories whose file paths
are unique, which by-path set semantics presupposes.) -/
theorem change_detection_matches_spec (rPrevious rLatest : List RemoteFileState)
    (lPrevious : List FileInfo) (lLatest : List LocalFileState)
    (hr : ((rLatest.filter (fun f => isFileType f.type)).map (fun f => f.path)).Nodup)
    (hl : ((lLatest.filter (fun f => isFileType f.type)).map (fun f => f.path)).Nodup) :
    (∀ p : Path,
      (⟨p, .removed⟩ : RemoteFileChange) ∈
          changeList (getRemoteChanges rPrevious rLatest) ↔
        (∃ a ∈ rPrevious, isFileType a.type = true ∧ a.path = p) ∧
        (∀ b ∈ rLatest, isFileType b.type = true → b.path ≠ p)) ∧
    (∀ (p : Path) (v : Nat),
      (⟨p, .added v⟩ : RemoteFileChange) ∈
          changeList (getRemoteChanges rPrevious rLatest) ↔
        ∃ b ∈ rLatest, isFileType b.type = true ∧ b.path = p ∧ b.version = v ∧
          ∀ a ∈ rPrevious, isFileType a.type = true → a.path ≠ p) ∧
    (∀ (p : Path) (v : Nat),
      (⟨p, .updated v⟩ : RemoteFileChange) ∈
          changeList (getRemoteChanges rPrevious rLatest) ↔
        ∃ a ∈ rPrevious, isFileType a.type = true ∧ a.path = p ∧ a.version = v ∧
          ∃ b ∈ rLatest, isFileType b.type = true ∧ b.path = p ∧ b.version ≠ v) ∧
    (getRemoteChanges rPrevious rLatest = none ↔
      (∀ a ∈ rPrevious, isFileType a.type = true →
        ∃ b ∈ rLatest, isFileType b.type = true ∧ b.path = a.path) ∧
      (∀ b ∈ rLatest, isFileType b.type = true →
        ∃ a ∈ rPrevious, isFileType a.type = true ∧ a.path = b.path) ∧
      (∀ a ∈ rPrevious, isFileType a.type = true →
        ∀ b ∈ rLatest, isFileType b.type = true → b.path = a.path →
          b.version = a.version)) ∧
    (∀ p : Path,
      (⟨p, .removed⟩ : LocalFileChange) ∈
          changeList (getLocalChanges lPrevious lLatest) ↔
        (∃ a ∈ lPrevious, isFileType a.type = true ∧ a.path = p) ∧
        (∀ b ∈ lLatest, isFileType b.type = true → b.path ≠ p)) ∧
    (∀ p : Path,
      (⟨p, .added⟩ : LocalFileChange) ∈
          changeList (getLocalChanges lPrevious lLatest) ↔
        ∃ b ∈ lLatest, isFileType b.type = true ∧ b.path = p ∧
          ∀ a ∈ lPrevious, isFileType a.type = true → a.path ≠ p) ∧
    (∀ p : Path,
      (⟨p, .updated⟩ : LocalFileChange) ∈
          changeList (getLocalChanges lPrevious lLatest) ↔
        ∃ a ∈ lPrevious, isFileType a.type = true ∧ a.path = p ∧
          ∃ b ∈ lLatest, isFileType b.type = true ∧ b.path = p ∧
            b.hash ≠ a.hash) ∧
    (getLocalChanges lPrevious lLatest = none ↔
      (∀ a ∈ lPrevious, isFileType a.type = true →
        ∃ b ∈ lLatest, isFileType b.type = true ∧ b.path = a.path) ∧
      (∀ b ∈ lLatest, isFileType b.type = true →
        ∃ a ∈ lPrevious, isFileType a.type = true ∧ a.path = b.path) ∧
      (∀ a ∈ lPrevious, isFileType a.type = true →
        ∀ b ∈ lLatest, isFileType b.type = true → b.path = a.path →
          b.hash = a.hash)) :=
  ⟨fun p => mem_removed_getRemoteChanges rPrevious rLatest p,
   fun p v => mem_added_getRemoteChanges rPrevious rLatest p v,
   fun p v => mem_updated_getRemoteChanges rPrevious rLatest p v hr,
   getRemoteChanges_eq_none_iff rPrevious rLatest hr,
   fun p => mem_removed_getLocalChanges lPrevious lLatest p,
   fun p => mem_added_getLocalChanges lPrevious lLatest p,
   fun p => mem_updated_getLocalChanges lPrevious lLatest p hl,
   getLocalChanges_eq_none_iff lPrevious lLatest hl⟩

/-- C2 witness: for the baseline holding only `a.txt` and an empty latest
remote inventory, the diff contains the removal record for `a.txt`. -/
theorem change_detection_matches_spec_witness :
    (⟨["a.txt"], .removed⟩ : RemoteFileChange) ∈
      changeList (getRemoteChanges
        [{ path := ["a.txt"], version := 1, type := .file }] []) :=
  ((change_detection_matches_spec
      [{ path := ["a.txt"], version := 1, type := .file }] [] [] []
      (by decide) (by decide)).1 ["a.txt"]).mpr (by decide)

/-- C10: every `updated` record produced by `getRemoteChanges` carries the
version of the baseline (`previous`) entry for its path, which differs
from the version of the matching latest remote entry. -/
theorem remote_updated_version_from_baseline (previous latest : List RemoteFileState)
    (p : Path) (v : Nat)
    (h : (⟨p, .updated v⟩ : RemoteFileChange) ∈
      changeList (getRemoteChanges previous latest)) :
    ∃ a ∈ previous, isFileType a.type = true ∧ a.path = p ∧ a.version = v ∧
      ∃ b ∈ latest, isFileType b.type = true ∧ b.path = p ∧ b.version ≠ v :=
  mem_updated_getRemoteChanges_mp previous latest p v h

/-- C10 witness: with baseline entry for `a.txt` at version 1 and latest
remote entry at version 2, the update record carries version 1. -/
theorem remote_updated_version_from_baseline_witness :
    ∃ a ∈ [({ path := ["a.txt"], version := 1, type := .file } : RemoteFileState)],
      isFileType a.type = true ∧ a.path = ["a.txt"] ∧ a.version = 1 ∧
      ∃ b ∈ [({ path := ["a.txt"], version := 2, type := .file } : RemoteFileState)],
        isFileType b.type = true ∧ b.path = ["a.txt"] ∧ b.version ≠ 1 :=
  remote_updated_version_from_baseline
    [{ path := ["a.txt"], version := 1, type := .file }]
    [{ path := ["a.txt"], version := 2, type := .file }]
    ["a.txt"] 1 (by decide)

/-- C6 counterexample: rejecting the locally updated read-only file
`README.md` yields `readOnlyFilesChanged` whose `path` field is the empty
string, not `"README.md"` — the exception does not identify the offending
file. -/
theorem readonly_rejection_counterexample :
    getFilesToUpload [⟨["README.md"], .updated⟩]
        [{ path := ["README.md"], version := 1, type := .file, permissions := .r }] =
      .error (.readOnlyFilesChanged "" "File is read-only") ∧
    ("" : String) ≠ "README.md" :=
  ⟨rfl, by decide⟩

/-- C6 (amended): whenever the upload-eligibility check rejects a locally
`updated` or `removed` file because the file's entry in the remote
inventory is not `rw` (or is absent), the run fails with a
`readOnlyFilesChanged` exception whose `path` field is the empty string
and whose `reason` is "File is read-only"; the offending path is not
carried in the exception. -/
theorem readonly_rejection_empty_path (remote : List RemoteFileInfo)
    (c : LocalFileChange) (hch : c.change = .updated ∨ c.change = .removed)
    (hw : isFileWritable remote c = false) :
    uploadEligibility remote c =
      .error (.readOnlyFilesChanged "" "File is read-only") ∧
    getFilesToUpload [c] remote =
      .error (.readOnlyFilesChanged "" "File is read-only") := by
  obtain ⟨p, ch⟩ := c
  have h1 : uploadEligibility remote ⟨p, ch⟩ =
      .error (.readOnlyFilesChanged "" "File is read-only") := by
    rcases hch with h | h <;> simp only [] at h <;> subst h <;>
      simp [uploadEligibility, hw]
  refine ⟨h1, ?_⟩
  rcases hch with h | h <;> simp only [] at h <;> subst h <;>
    simp [getFilesToUpload, List.mapM, List.mapM.loop, h1, Except.bind]

/-- C6 (amended) witness: the concrete `README.md` rejection. -/
theorem readonly_rejection_empty_path_witness :
    uploadEligibility
        [{ path := ["README.md"], version := 1, type := .file, permissions := .r }]
        ⟨["README.md"], .updated⟩ =
      .error (.readOnlyFilesChanged "" "File is read-only") ∧
    getFilesToUpload [⟨["README.md"], .updated⟩]
        [{ path := ["README.md"], version := 1, type := .file, permissions := .r }] =
      .error (.readOnlyFilesChanged "" "File is read-only") :=
  readonly_rejection_empty_path _ _ (Or.inl rfl) (by decide)

theorem pairwise_le_of_const (l : List Nat) (c : Nat) (h : ∀ x ∈ l, x = c) :
    l.Pairwise (· ≤ ·) := by
  induction l with
  | nil => exact List.Pairwise.nil
  | cons x xs ih =>
    refine List.Pairwise.cons ?_ (ih (fun y hy => h y (List.mem_cons_of_mem x hy)))
    intro y hy
    rw [h x (List.mem_cons_self x xs), h y (List.mem_cons_of_mem x hy)]

/-- C7 counterexample: with a baseline listing `b` before `a` and an empty
latest inventory, the removal records come out as `b` then `a`, although
alphabetically `a` precedes `b` — groups are not alphabetised. -/
theorem change_order_counterexample :
    getRemoteChanges
        [{ path := ["b"], version := 1, type := .file },
         { path := ["a"], version := 1, type := .file }] [] =
      some [⟨["b"], .removed⟩, ⟨["a"], .removed⟩] ∧
    ('a' : Char) < 'b' :=
  ⟨rfl, by decide⟩

theorem sorted_rank_append3 {β : Type} (rank : β → Nat) (L1 L2 L3 : List β)
    (h1 : ∀ x ∈ L1, rank x = 0) (h2 : ∀ x ∈ L2, rank x = 1)
    (h3 : ∀ x ∈ L3, rank x = 2) :
    ((L1 ++ L2 ++ L3).map rank).Sorted (· ≤ ·) := by
  rw [List.map_append, List.map_append]
  have e1 : ∀ x ∈ L1.map rank, x = 0 := by
    intro x hx
    obtain ⟨a, ha, rfl⟩ := List.mem_map.mp hx
    exact h1 a ha
  have e2 : ∀ x ∈ L2.map rank, x = 1 := by
    intro x hx
    obtain ⟨a, ha, rfl⟩ := List.mem_map.mp hx
    exact h2 a ha
  have e3 : ∀ x ∈ L3.map rank, x = 2 := by
    intro x hx
    obtain ⟨a, ha, rfl⟩ := List.mem_map.mp hx
    exact h3 a ha
  refine List.pairwise_append.mpr ⟨List.pairwise_append.mpr
      ⟨pairwise_le_of_const _ 0 e1, pairwise_le_of_const _ 1 e2, ?_⟩,
    pairwise_le_of_const _ 2 e3, ?_⟩
  · intro a ha b hb
    rw [e1 a ha, e2 b hb]
    exact Nat.zero_le 1
  · intro a ha b hb
    rcases List.mem_append.mp ha with h | h
    · rw [e1 a h, e3 b hb]
      exact Nat.zero_le 2
    · rw [e2 a h, e3 b hb]
      exact Nat.le_of_lt Nat.one_lt_two

/-- C7 (amended): change records are emitted as all `removed`, then all
`added`, then all `updated` (ranks are monotone), and within each group
the records follow the order of the source inventory (`previous` order
for removed and updated, `latest` order for added), not alphabetical
order; this holds for remote and local diffs alike. -/
theorem change_order_amended (rPrevious rLatest : List RemoteFileState)
    (lPrevious : List FileInfo) (lLatest : List LocalFileState) :
    ((changeList (getRemoteChanges rPrevious rLatest)).map remoteChangeRank).Sorted
        (· ≤ ·) ∧
    ((changeList (getRemoteChanges rPrevious rLatest)).filter
        (fun c => remoteChangeRank c == 0)).map (fun c => c.path) =
      ((rPrevious.filter (fun f => isFileType f.type)).filter
          (fun p => !((rLatest.filter (fun f => isFileType f.type)).any
            (fun l => l.path == p.path)))).map (fun f => f.path) ∧
    ((changeList (getRemoteChanges rPrevious rLatest)).filter
        (fun c => remoteChangeRank c == 1)).map (fun c => c.path) =
      ((rLatest.filter (fun f => isFileType f.type)).filter
          (fun l => !((rPrevious.filter (fun f => isFileType f.type)).any
            (fun p => p.path == l.path)))).map (fun f => f.path) ∧
    ((changeList (getRemoteChanges rPrevious rLatest)).filter
        (fun c => remoteChangeRank c == 2)).map (fun c => c.path) =
      ((rPrevious.filter (fun f => isFileType f.type)).filter
          (fun ls =>
            match (rLatest.filter (fun f => isFileType f.type)).find?
                (fun cs => cs.path == ls.path) with
            | some cs => cs.version != ls.version
            | none => false)).map (fun f => f.path) ∧
    ((changeList (getLocalChanges lPrevious lLatest)).map localChangeRank).Sorted
        (· ≤ ·) ∧
    ((changeList (getLocalChanges lPrevious lLatest)).filter
        (fun c => localChangeRank c == 0)).map (fun c => c.path) =
      ((lPrevious.filter (fun f => isFileType f.type)).filter
          (fun p => !((lLatest.filter (fun f => isFileType f.type)).any
            (fun l => l.path == p.path)))).map (fun f => f.path) ∧
    ((changeList (getLocalChanges lPrevious lLatest)).filter
        (fun c => localChangeRank c == 1)).map (fun c => c.path) =
      ((lLatest.filter (fun f => isFileType f.type)).filter
          (fun l => !((lPrevious.filter (fun f => isFileType f.type)).any
            (fun p => p.path == l.path)))).map (fun f => f.path) ∧
    ((changeList (getLocalChanges lPrevious lLatest)).filter
        (fun c => localChangeRank c == 2)).map (fun c => c.path) =
      (((lPrevious.filter (fun f => isFileType f.type)).flatMap
          (fun p =>
            match (lLatest.filter (fun f => isFileType f.type)).find?
                (fun l => l.path == p.path) with
            | some l => [(p, l)]
            | none => [])).filter
        (fun pl => pl.2.hash != pl.1.hash)).map (fun pl => pl.2.path) := by
  refine ⟨?_, ?_, ?_, ?_, ?_, ?_, ?_, ?_⟩ <;>
    simp only [getRemoteChanges, getLocalChanges, changeList_nonEmptyFromList]
  · refine sorted_rank_append3 remoteChangeRank _ _ _ ?_ ?_ ?_ <;>
      (intro x hx; obtain ⟨a, ha, rfl⟩ := List.mem_map.mp hx; rfl)
  · simp [List.filter_append, List.filter_map, remoteChangeRank, List.map_map,
      Function.comp]
  · simp [List.filter_append, List.filter_map, remoteChangeRank, List.map_map,
      Function.comp]
  · simp [List.filter_append, List.filter_map, remoteChangeRank, List.map_map,
      Function.comp]
  · refine sorted_rank_append3 localChangeRank _ _ _ ?_ ?_ ?_ <;>
      (intro x hx; obtain ⟨a, ha, rfl⟩ := List.mem_map.mp hx; rfl)
  · simp [List.filter_append, List.filter_map, localChangeRank, List.map_map,
      Function.comp]
  · simp [List.filter_append, List.filter_map, localChangeRank, List.map_map,
      Function.comp]
  · simp [List.filter_append, List.filter_map, localChangeRank, List.map_map,
      Function.comp]

theorem ancestorPaths_nil : ancestorPaths [] = [] := by
  rw [ancestorPaths]

theorem ancestorPaths_cons (x : String) (xs : List String) :
    ancestorPaths (x :: xs) =
      pathDirname (x :: xs) :: ancestorPaths (pathDirname (x :: xs)) := by
  rw [ancestorPaths]

theorem walkUp_cons (p : Path) (h : p ≠ []) :
    walkUp p = p :: walkUp (pathDirname p) := by
  cases p with
  | nil => exact absurd rfl h
  | cons x xs =>
    rw [walkUp, walkUp, ancestorPaths_cons]

theorem any_eq_find?_isSome {α : Type} (l : List α) (p : α → Bool) :
    l.any p = (l.find? p).isSome := by
  induction l with
  | nil => rfl
  | cons x xs ih =>
    rw [List.any_cons, List.find?_cons]
    cases hp : p x <;> simp [hp, ih]

theorem findClosest_firstExistingAncestor (remote : List RemoteFileInfo) :
    ∀ p : Path,
      (firstExistingAncestor remote p = none →
        findClosest
            (fun closestPath =>
              (remote.find? (fun i => i.path == closestPath)).map
                (fun i => i.permissions == FilePermissions.rw)) p =
          .error (.fileSystemCorrupted "." "Root directory must exist")) ∧
      (∀ q, firstExistingAncestor remote p = some q →
        ∃ i, remote.find? (fun i => i.path == q) = some i ∧
          findClosest
              (fun closestPath =>
                (remote.find? (fun i => i.path == closestPath)).map
                  (fun i => i.permissions == FilePermissions.rw)) p =
            .ok (i.permissions == FilePermissions.rw)) := by
  suffices H : ∀ n, ∀ p : Path, p.length ≤ n →
      (firstExistingAncestor remote p = none →
        findClosest
            (fun closestPath =>
              (remote.find? (fun i => i.path == closestPath)).map
                (fun i => i.permissions == FilePermissions.rw)) p =
          .error (.fileSystemCorrupted "." "Root directory must exist")) ∧
      (∀ q, firstExistingAncestor remote p = some q →
        ∃ i, remote.find? (fun i => i.path == q) = some i ∧
          findClosest
              (fun closestPath =>
                (remote.find? (fun i => i.path == closestPath)).map
                  (fun i => i.permissions == FilePermissions.rw)) p =
            .ok (i.permissions == FilePermissions.rw)) by
    exact fun p => H p.length p le_rfl
  intro n
  induction n with
  | zero =>
    intro p hp
    have hnil : p = [] := List.length_eq_zero.mp (Nat.le_zero.mp hp)
    subst hnil
    rw [findClosest]
    rcases hfind : remote.find? (fun i => i.path == ([] : Path)) with _ | i
    · have hany : remote.any (fun i => i.path == ([] : Path)) = false := by
        rw [any_eq_find?_isSome, hfind]
        rfl
      constructor
      · intro _
        simp only [hfind, Option.map_none']
        rfl
      · intro q hq
        rw [firstExistingAncestor, walkUp, ancestorPaths_nil, List.find?_cons,
          hany] at hq
        exact Option.noConfusion hq
    · have hany : remote.any (fun i => i.path == ([] : Path)) = true := by
        rw [any_eq_find?_isSome, hfind]
        rfl
      constructor
      · intro hq
        rw [firstExistingAncestor, walkUp, ancestorPaths_nil, List.find?_cons,
          hany] at hq
        exact Option.noConfusion hq
      · intro q hq
        rw [firstExistingAncestor, walkUp, ancestorPaths_nil, List.find?_cons,
          hany] at hq
        obtain rfl : ([] : Path) = q := by simpa using hq
        refine ⟨i, hfind, ?_⟩
        simp only [hfind, Option.map_some']
    | succ n ih =>
    intro p hp
    by_cases hz : p = []
    · subst hz
      exact (by simpa using ih [] (by simp) : _)
    · rw [findClosest]
      rcases hfind : remote.find? (fun i => i.path == p) with _ | i
      · have hany : remote.any (fun i => i.path == p) = false := by
          rw [any_eq_find?_isSome, hfind]
          rfl
        have hfirst : firstExistingAncestor remote p =
            firstExistingAncestor remote (pathDirname p) := by
          rw [firstExistingAncestor, walkUp_cons p hz, List.find?_cons, hany]
          rfl
        have hlen : (pathDirname p).length ≤ n := by
          have := List.length_dropLast p
          have hpos : 0 < p.length := List.length_pos.mpr hz
          simp only [pathDirname, this]
          omega
        have hrec := ih (pathDirname p) hlen
        simp only [hfind, Option.map_none']
        rw [dif_neg hz]
        constructor
        · intro hq
          rw [hfirst] at hq
          exact hrec.1 hq
        · intro q hq
          rw [hfirst] at hq
          exact hrec.2 q hq
      · have hany : remote.any (fun i => i.path == p) = true := by
          rw [any_eq_find?_isSome, hfind]
          rfl
        have hfirst : firstExistingAncestor remote p = some p := by
          rw [firstExistingAncestor, walkUp_cons p hz, List.find?_cons, hany]
        constructor
        · intro hq
          rw [hfirst] at hq
          exact Option.noConfusion hq
        · intro q hq
          rw [hfirst] at hq
          obtain rfl : p = q := by simpa using hq
          refine ⟨i, hfind, ?_⟩
          simp only [hfind, Option.map_some']

/-- C8: if the closest-existing-ancestor check accepts a local change for
path `p`, then the first path on the upward walk from `p` (via `dirname`)
that is present in the remote inventory has permissions `rw`; and if no
path on the walk up to the root `.` is present in the remote inventory,
the check fails with `fileSystemCorrupted`. -/
theorem closest_ancestor_check_spec (remote : List RemoteFileInfo)
    (c : LocalFileChange) :
    (∀ r, checkClosestExistingAncestorIsWritable remote c = .ok r →
      ∃ q i, firstExistingAncestor remote c.path = some q ∧
        remote.find? (fun j => j.path == q) = some i ∧
        i.permissions = FilePermissions.rw) ∧
    (firstExistingAncestor remote c.path = none →
      checkClosestExistingAncestorIsWritable remote c =
        .error (.fileSystemCorrupted "." "Root directory must exist")) := by
  have H := findClosest_firstExistingAncestor remote c.path
  constructor
  · intro r hok
    rcases hfa : firstExistingAncestor remote c.path with _ | q
    · rw [checkClosestExistingAncestorIsWritable, H.1 hfa] at hok
      exact Except.noConfusion hok
    · obtain ⟨i, hfind, hfc⟩ := H.2 q hfa
      rw [checkClosestExistingAncestorIsWritable, hfc] at hok
      rcases hperm : i.permissions == FilePermissions.rw with _ | _
      · rw [hperm] at hok
        exact Except.noConfusion hok
      · exact ⟨q, i, rfl, hfind, by simpa using hperm⟩
  · intro hfa
    rw [checkClosestExistingAncestorIsWritable, H.1 hfa]

/-- C8 witness: with a writable root directory in the remote inventory,
the check accepts an added file and the accepted walk ends at the root,
which is `rw`. -/
theorem closest_ancestor_check_spec_witness :
    ∃ (q : Path) (i : RemoteFileInfo),
      firstExistingAncestor
          [{ path := [], version := 1, type := .dir, permissions := .rw }]
          (⟨["a.txt"], .added⟩ : LocalFileChange).path = some q ∧
      List.find? (fun j : RemoteFileInfo => j.path == q)
          [{ path := [], version := 1, type := .dir, permissions := .rw }] = some i ∧
      i.permissions = FilePermissions.rw :=
  (closest_ancestor_check_spec
      [{ path := [], version := 1, type := .dir, permissions := .rw }]
      ⟨["a.txt"], .added⟩).1 ⟨["a.txt"], .added⟩
    (by rw [checkClosestExistingAncestorIsWritable, findClosest, findClosest]
        rfl)

end CodeExpert
